import Mathlib

/-!
Shallow embedding of the multiplayer snake game server (`src/server.py`) and a
verification of its stated invariants and per-tick behaviour.

The simulation core (`GameState.step`, server.py lines 220-343), the entity
operations (`add_player`, `remove_player`, `spawn_food`), the spatial
utilities (`clamp_pos`, `find_empty_position`) and the per-connection message
handlers of `websocket_endpoint` are translated as executable Lean functions.
Python dicts become association lists iterated in insertion order, Python sets
become `Finset`s, and every use of `random` is made explicit as a parameter
(candidate probe positions, spawn anchors, colour hue), so the transition is a
total function of state and supplied randomness.  The food-replenishment
`while` loop of `spawn_food`, which is not structurally terminating, takes the
list of per-iteration random draws as its recursion fuel: running it with an
arbitrary finite draw list models any finite prefix of the loop's execution.
-/

namespace Snake

/-- Grid cell: `(x, y)` integer coordinates, as produced by `clamp_pos`. -/
abbrev Pos : Type := Int × Int

/-- server.py line 24. -/
def WIDTH : Int := 40

/-- server.py line 25. -/
def HEIGHT : Int := 30

/-- server.py line 27. -/
def START_LENGTH : Nat := 3

/-- server.py line 28. -/
def FOOD_COUNT : Nat := 5

/-- server.py lines 72-74: wrap a position around the board edges.  Python's
`%` on ints agrees with `Int.emod` for a positive modulus. -/
def clamp_pos (x y : Int) : Pos := (x % WIDTH, y % HEIGHT)

/-- The grid cells in the row-major order of the exhaustive fallback scan of
`find_empty_position` (server.py lines 86-89: `x` outer, `y` inner). -/
def allCells : List Pos :=
  (List.range 40).flatMap (fun x => (List.range 30).map (fun y => ((x : Int), (y : Int))))

/-- One iteration's worth of random draws for `find_empty_position`:
the (up to 100) random probe positions of server.py lines 79-83 and the
"last resort" random position of line 92. -/
structure RandStep where
  probes : List Pos
  last : Pos

/-- server.py lines 76-92: try the random probes, fall back to an exhaustive
row-major scan, and as a last resort return the extra random position. -/
def find_empty_position (r : RandStep) (occupied : Finset Pos) : Pos :=
  match r.probes.find? (fun p => decide (p ∉ occupied)) with
  | some p => p
  | none =>
      match allCells.find? (fun p => decide (p ∉ occupied)) with
      | some p => p
      | none => r.last

/-- server.py lines 104-114: the body of `spawn_food`'s `while` loop, run once
per element of the supplied draw list (the loop exits early once
`len(food) = FOOD_COUNT`; exhausting the draws models stopping observation of
a still-running loop). -/
def spawn_food_aux : List RandStep → List Pos × Finset Pos → List Pos × Finset Pos
  | [], s => s
  | r :: rs, s =>
      if s.1.length < FOOD_COUNT then
        let pos := find_empty_position r s.2
        if pos ∈ s.2 then spawn_food_aux rs s
        else spawn_food_aux rs (s.1 ++ [pos], insert pos s.2)
      else s

/-- The per-player record of server.py lines 155-167. -/
structure Player where
  display_name : String
  body : List Pos
  dir : Int × Int
  pending_dir : Int × Int
  alive : Bool
  score : Nat
  food_collected : Nat
  color : String
  last_input_time : Nat
  spawn_tick : Nat
deriving DecidableEq

/-- The `GameState` aggregate of server.py lines 95-101.  `players` and
`death_reasons` are Python dicts, modelled as association lists kept in
insertion order with unique keys. -/
structure GameState where
  players : List (String × Player)
  food : List Pos
  occupied : Finset Pos
  tick : Nat
  death_reasons : List (String × String)

/-- Dict lookup: value at the first occurrence of the key. -/
def alookup {β : Type} (k : String) : List (String × β) → Option β
  | [] => none
  | p :: rest => if p.1 = k then some p.2 else alookup k rest

/-- Dict assignment `d[k] = v`: replace in place if present, else append. -/
def aset {β : Type} (k : String) (v : β) : List (String × β) → List (String × β)
  | [] => [(k, v)]
  | p :: rest => if p.1 = k then (k, v) :: rest else p :: aset k v rest

/-- In-place update of the value stored at a key (Python mutates the dict's
value object); no-op for an absent key. -/
def amodify {β : Type} (k : String) (f : β → β) : List (String × β) → List (String × β)
  | [] => []
  | p :: rest => if p.1 = k then (p.1, f p.2) :: rest else p :: amodify k f rest

/-- Dict deletion `del d[k]` (guarded by membership in the source). -/
def aerase {β : Type} (k : String) : List (String × β) → List (String × β)
  | [] => []
  | p :: rest => if p.1 = k then rest else p :: aerase k rest

/-- Random draws for one `add_player` call: the (up to 100) random spawn
anchors of server.py lines 126-129, the unchecked fallback anchor of lines
174-175, and the colour hue of lines 152/183. -/
structure SpawnRng where
  attempts : List (Int × Int)
  fallback : Int × Int
  hue : Nat

/-- server.py lines 135-144 / 176-178: the horizontal start body extending
leftward (with x-wraparound) from the anchor. -/
def spawnBody (anchor : Int × Int) : List Pos :=
  (List.range START_LENGTH).map (fun i => ((anchor.1 - (i : Int)) % WIDTH, anchor.2))

/-- The fresh player record of server.py lines 155-167 / 186-198. -/
def mkPlayer (dname : String) (body : List Pos) (hue : Nat) (now : Nat) (tick : Nat) : Player :=
  { display_name := dname
    body := body
    dir := (1, 0)
    pending_dir := (1, 0)
    alive := true
    score := 0
    food_collected := 0
    color := "hsl(" ++ toString hue ++ ", 100%, 50%)"
    last_input_time := now
    spawn_tick := tick }

/-- server.py lines 116-198: `add_player`.  The first anchor whose candidate
body avoids the occupied snapshot is used; if no attempt succeeds, the
fallback anchor is used unchecked.  `time.time()` is the `now` parameter. -/
def GameState.add_player (st : GameState) (rng : SpawnRng) (pid : String)
    (dname : String) (now : Nat) : GameState :=
  match rng.attempts.find? (fun a => decide (∀ c ∈ spawnBody a, c ∉ st.occupied)) with
  | some a =>
      { st with
        players := aset pid (mkPlayer dname (spawnBody a) rng.hue now st.tick) st.players
        occupied := st.occupied ∪ (spawnBody a).toFinset }
  | none =>
      { st with
        players := aset pid (mkPlayer dname (spawnBody rng.fallback) rng.hue now st.tick) st.players
        occupied := st.occupied ∪ (spawnBody rng.fallback).toFinset }

/-- server.py lines 200-218: `remove_player` releases the body cells from
`occupied`, deletes the player and any recorded death cause. -/
def GameState.remove_player (st : GameState) (pid : String) : GameState :=
  match alookup pid st.players with
  | none => st
  | some pl =>
      { st with
        occupied := st.occupied \ pl.body.toFinset
        players := aerase pid st.players
        death_reasons := aerase pid st.death_reasons }

/-- server.py lines 104-114: `spawn_food` applied to the game state. -/
def GameState.spawn_food (st : GameState) (rng : List RandStep) : GameState :=
  let fo := spawn_food_aux rng (st.food, st.occupied)
  { st with food := fo.1, occupied := fo.2 }

/-- server.py lines 232-237: commit the pending direction unless it is the
exact opposite of the current direction. -/
def commitDir (pl : Player) : Player :=
  if pl.pending_dir = (-pl.dir.1, -pl.dir.2) then pl
  else { pl with dir := pl.pending_dir }

/-- server.py lines 240-242: the projected new head of a (committed) player. -/
def projectHead (pl : Player) : Pos :=
  clamp_pos (pl.body.headI.1 + pl.dir.1) (pl.body.headI.2 + pl.dir.2)

/-- First pass of `step` (server.py lines 227-243): commit every alive
player's direction. -/
def commitPlayers (ps : List (String × Player)) : List (String × Player) :=
  ps.map (fun pr => if pr.2.alive then (pr.1, commitDir pr.2) else pr)

/-- The `new_heads` dict of server.py lines 223, 243: projected head per
alive player, in iteration order. -/
def newHeads (ps : List (String × Player)) : List (String × Pos) :=
  (ps.filter (fun pr => pr.2.alive)).map (fun pr => (pr.1, projectHead pr.2))

/-- The union of all alive players' body cells (server.py lines 246-250 and
327-329 build occupancy sets this way). -/
def aliveBodiesCells (ps : List (String × Player)) : Finset Pos :=
  ps.foldr (fun pr acc => if pr.2.alive then pr.2.body.toFinset ∪ acc else acc) ∅

/-- The mutable locals threaded through the collision loop of server.py lines
254-296: the players dict (whose `food_collected` fields it bumps), `food`,
`temp_occupied`, `snakes_to_grow`, `dead_snakes` and `death_reasons`. -/
structure P3 where
  players : List (String × Player)
  food : List Pos
  temp : Finset Pos
  grow : List String
  dead : Finset String
  reasons : List (String × String)

/-- server.py lines 273-276: the other entries of `new_heads` projecting the
same cell as `pid`. -/
def hhClash (nhs : List (String × Pos)) (pid : String) (nh : Pos) : List String :=
  (nhs.filter (fun pr => decide (pr.1 ≠ pid ∧ pr.2 = nh))).map Prod.fst

/-- Record the same death reason for a batch of players (server.py lines
280-281 write it for the player and each clashing other). -/
def setReasonAll (v : String) (ids : List String) (m : List (String × String)) :
    List (String × String) :=
  ids.foldl (fun acc i => aset i v acc) m

/-- server.py lines 263-270: food consumption by the projected head. -/
def p3food (s : P3) (pid : String) (nh : Pos) : P3 :=
  if nh ∈ s.food then
    { s with
      grow := s.grow ++ [pid]
      food := s.food.erase nh
      players := amodify pid (fun q => { q with food_collected := q.food_collected + 1 }) s.players
      temp := s.temp.erase nh }
  else s

/-- server.py lines 272-281: head-to-head collision detection. -/
def p3heads (nhs : List (String × Pos)) (s : P3) (pid : String) (nh : Pos) : P3 :=
  if hhClash nhs pid nh = [] then s
  else
    { s with
      dead := insert pid s.dead ∪ (hhClash nhs pid nh).toFinset
      reasons := setReasonAll "head_collision" (pid :: hhClash nhs pid nh) s.reasons }

/-- The `excluded_positions` set of server.py lines 285-289: the player's own
current tail, unless it is growing this tick. -/
def p3excluded (s : P3) (pid : String) (pl : Player) : Finset Pos :=
  if pid ∈ s.grow then ∅
  else if pl.body = [] then ∅
  else {pl.body.getLastD (0, 0)}

/-- server.py lines 283-296: collision of the projected head with the
transient occupancy set, with the own-tail exemption for non-growing
players. -/
def p3body (s : P3) (pid : String) (pl : Player) (nh : Pos) : P3 :=
  if pid ∈ s.dead then s
  else if nh ∈ s.temp ∧ nh ∉ p3excluded s pid pl then
    { s with
      dead := insert pid s.dead
      reasons := aset pid (if nh ∈ pl.body then "self" else "other") s.reasons }
  else s

/-- One iteration of the collision loop (server.py lines 257-296) for the
player pair `pr`; dead players are skipped.  `new_heads[player_id]` is the
`alookup` (a `KeyError` is impossible in the source; the `none` branch is
dead code). -/
def p3one (nhs : List (String × Pos)) (s : P3) (pr : String × Player) : P3 :=
  if pr.2.alive then
    match alookup pr.1 nhs with
    | none => s
    | some nh => p3body (p3heads nhs (p3food s pr.1 nh) pr.1 nh) pr.1 pr.2 nh
  else s

/-- The whole collision-resolution loop of server.py lines 254-296, starting
from the transient occupancy set of lines 245-252. -/
def GameState.phase3 (st : GameState) : P3 :=
  let ps1 := commitPlayers st.players
  ps1.foldl (p3one (newHeads ps1))
    { players := ps1
      food := st.food
      temp := aliveBodiesCells ps1 ∪ st.food.toFinset
      grow := []
      dead := ∅
      reasons := st.death_reasons }

/-- server.py lines 305-325: move one player — newly dead players are marked
not-alive and kept in place, survivors get the new head prepended and either
score (growth) or drop the tail when longer than the start length. -/
def movePl (nhs : List (String × Pos)) (grow : List String) (dead : Finset String)
    (pid : String) (pl : Player) : Player :=
  if pl.alive then
    if pid ∈ dead then { pl with alive := false }
    else
      match alookup pid nhs with
      | none => pl
      | some nh =>
          let body1 := nh :: pl.body
          if pid ∈ grow then { pl with body := body1, score := pl.score + 1 }
          else { pl with body := if START_LENGTH < body1.length then body1.dropLast else body1 }
  else pl

/-- server.py lines 331-339: the union of the bodies of the snakes that died
this tick, removed from the rebuilt occupancy set during cleanup. -/
def deadCellsOf (dead : Finset String) (ps : List (String × Player)) : Finset Pos :=
  ps.foldr (fun pr acc => if pr.1 ∈ dead then pr.2.body.toFinset ∪ acc else acc) ∅

/-- server.py lines 220-339 (everything in `step` before food replenishment
and the tick increment): direction commit, collision resolution, movement,
occupancy rebuild and dead-snake cleanup. -/
def GameState.step_core (st : GameState) : GameState :=
  let nhs := newHeads (commitPlayers st.players)
  let s3 := st.phase3
  let ps4 := s3.players.map (fun pr => (pr.1, movePl nhs s3.grow s3.dead pr.1 pr.2))
  { players := ps4
    food := s3.food
    occupied := (s3.food.toFinset ∪ aliveBodiesCells ps4) \ deadCellsOf s3.dead ps4
    tick := st.tick
    death_reasons := s3.reasons }

/-- server.py lines 220-343: one full tick, including food replenishment
(lines 341-342, randomness explicit) and the tick increment (line 343). -/
def GameState.step (st : GameState) (rng : List RandStep) : GameState :=
  let c := st.step_core
  let c2 := c.spawn_food rng
  { c2 with tick := c2.tick + 1 }

/-- server.py lines 525-535: the `input` message handler.  The message's
`dir` field is modelled as the list of its integer entries. -/
def handle_input (st : GameState) (pid : String) (dir : List Int) (now : Nat) : GameState :=
  if dir.length = 2 then
    match alookup pid st.players with
    | none => st
    | some pl =>
        if pl.alive then
          let dx := dir.getD 0 0
          let dy := dir.getD 1 0
          if (dx = -1 ∨ dx = 0 ∨ dx = 1) ∧ (dy = -1 ∨ dy = 0 ∨ dy = 1) ∧ (dx ≠ 0 ∨ dy ≠ 0) then
            { st with
              players := amodify pid
                (fun q => { q with pending_dir := (dx, dy), last_input_time := now }) st.players }
          else st
        else st
  else st

/-- The validity condition the `input` handler enforces, as a single
predicate (for the characterisation theorem). -/
def inputOk (st : GameState) (pid : String) (dir : List Int) : Prop :=
  dir.length = 2 ∧
    (∃ pl, alookup pid st.players = some pl ∧ pl.alive = true) ∧
    (dir.getD 0 0 = -1 ∨ dir.getD 0 0 = 0 ∨ dir.getD 0 0 = 1) ∧
    (dir.getD 1 0 = -1 ∨ dir.getD 1 0 = 0 ∨ dir.getD 1 0 = 1) ∧
    (dir.getD 0 0 ≠ 0 ∨ dir.getD 1 0 ≠ 0)

/-- server.py lines 537-543: the `respawn` message handler.  The endpoint's
local `display_name` (line 483) is initialised to `player_id` and never
reassigned (the `rename` handler writes only into the game state), so the
re-add always uses `pid` as the display name. -/
def handle_respawn (st : GameState) (rng : SpawnRng) (pid : String) (now : Nat) : GameState :=
  match alookup pid st.players with
  | none => st
  | some pl =>
      if pl.alive then st
      else (st.remove_player pid).add_player rng pid pid now

/-- Python `str.strip()`: remove leading and trailing whitespace, modelled
character by character on the string's character list. -/
def pyStrip (s : String) : String :=
  ⟨((s.data.dropWhile Char.isWhitespace).reverse.dropWhile Char.isWhitespace).reverse⟩

/-- Python `s[:n]`: the first `n` characters. -/
def pyTake (s : String) (n : Nat) : String := ⟨s.data.take n⟩

/-- server.py lines 545-555: the `rename` message handler (the notification
send is I/O, not game state).  `new_name.strip()[:20]` is
`pyTake (pyStrip name) 20`. -/
def handle_rename (st : GameState) (pid : String) (name : String) : GameState :=
  if (alookup pid st.players) ≠ none ∧ name ≠ "" ∧ pyStrip name ≠ "" then
    { st with
      players := amodify pid
        (fun q => { q with display_name := pyTake (pyStrip name) 20 }) st.players }
  else st

/-! ### Specification-level predicates (from spec.md §3 and §8) -/

/-- dict keys are unique (always true of a Python dict). -/
abbrev NodupKeys (st : GameState) : Prop := (st.players.map Prod.fst).Nodup

/-- spec.md: "every alive player's occupied cells are pairwise disjoint from
every other alive player's occupied cells". -/
abbrev AliveDisjoint (st : GameState) : Prop :=
  ∀ pr ∈ st.players, ∀ qr ∈ st.players, pr.1 ≠ qr.1 → pr.2.alive = true → qr.2.alive = true →
    ∀ c ∈ pr.2.body, c ∉ qr.2.body

/-- No food item lies on an alive player's body (spec.md: "Food never spawns
on an occupied cell"). -/
abbrev FoodClear (st : GameState) : Prop :=
  ∀ pr ∈ st.players, pr.2.alive = true → ∀ c ∈ st.food, c ∉ pr.2.body

/-- spec.md §3: the occupancy set equals the union of every alive player's
body cells and all food cells. -/
abbrev OccInv (st : GameState) : Prop :=
  st.occupied = aliveBodiesCells st.players ∪ st.food.toFinset

/-! ### Association-list lemmas -/

theorem alookup_mem {β : Type} {k : String} {v : β} {l : List (String × β)}
    (h : alookup k l = some v) : (k, v) ∈ l := by
  induction l with
  | nil => simp [alookup] at h
  | cons p rest ih =>
      rw [alookup] at h
      split at h
      · rename_i hp
        obtain rfl : p.2 = v := Option.some.inj h
        subst hp
        simp
      · exact List.mem_cons_of_mem _ (ih h)

theorem alookup_eq_some_of_mem {β : Type} {k : String} {v : β} {l : List (String × β)}
    (hnd : (l.map Prod.fst).Nodup) (h : (k, v) ∈ l) : alookup k l = some v := by
  induction l with
  | nil => simp at h
  | cons p rest ih =>
      simp only [List.map_cons, List.nodup_cons] at hnd
      rcases List.mem_cons.mp h with h1 | h1
      · rw [← h1, alookup, if_pos rfl]
      · have hk : p.1 ≠ k := by
          intro he
          exact hnd.1 (List.mem_map.mpr ⟨(k, v), h1, by rw [he]⟩)
        rw [alookup, if_neg hk]
        exact ih hnd.2 h1

theorem alookup_none_of_not_mem_keys {β : Type} {k : String} {l : List (String × β)}
    (h : k ∉ l.map Prod.fst) : alookup k l = none := by
  induction l with
  | nil => rfl
  | cons p rest ih =>
      simp only [List.map_cons, List.mem_cons] at h
      push_neg at h
      rw [alookup, if_neg (fun he => h.1 he.symm)]
      exact ih h.2

theorem alookup_isSome_of_mem {β : Type} {k : String} {v : β} {l : List (String × β)}
    (h : (k, v) ∈ l) : alookup k l ≠ none := by
  induction l with
  | nil => simp at h
  | cons p rest ih =>
      rw [alookup]
      split
      · simp
      · rename_i hp
        rcases List.mem_cons.mp h with h1 | h1
        · exact absurd (congrArg Prod.fst h1.symm) hp
        · exact ih h1

/-- A successful lookup splits the list at the first occurrence of the key. -/
theorem alookup_split {β : Type} {k : String} {v : β} {l : List (String × β)}
    (h : alookup k l = some v) :
    ∃ l1 l2, l = l1 ++ (k, v) :: l2 ∧ ∀ pr ∈ l1, pr.1 ≠ k := by
  induction l with
  | nil => simp [alookup] at h
  | cons p rest ih =>
      rw [alookup] at h
      split at h
      · rename_i hp
        obtain rfl : p.2 = v := Option.some.inj h
        subst hp
        exact ⟨[], rest, by simp, by simp⟩
      · rename_i hp
        obtain ⟨l1, l2, heq, hl1⟩ := ih h
        refine ⟨p :: l1, l2, by rw [heq]; rfl, ?_⟩
        intro pr hpr
        rcases List.mem_cons.mp hpr with h1 | h1
        · rw [h1]; exact hp
        · exact hl1 pr h1

theorem keys_aset {β : Type} (k : String) (v : β) (l : List (String × β))
    (h : alookup k l ≠ none) : (aset k v l).map Prod.fst = l.map Prod.fst := by
  induction l with
  | nil => simp [alookup] at h
  | cons p rest ih =>
      rw [alookup] at h
      rw [aset]
      split
      · rename_i hp
        simp [hp]
      · rename_i hp
        rw [if_neg hp] at h
        simp [ih h]

theorem aset_eq_append_of_fresh {β : Type} {k : String} (v : β) {l : List (String × β)}
    (h : alookup k l = none) : aset k v l = l ++ [(k, v)] := by
  induction l with
  | nil => rfl
  | cons p rest ih =>
      rw [alookup] at h
      split at h
      · exact absurd h (by simp)
      · rename_i hp
        rw [aset, if_neg hp, ih h]
        rfl

theorem alookup_aset_self {β : Type} (k : String) (v : β) (l : List (String × β)) :
    alookup k (aset k v l) = some v := by
  induction l with
  | nil => simp [aset, alookup]
  | cons p rest ih =>
      rw [aset]
      split
      · rw [alookup, if_pos rfl]
      · rename_i hp
        rw [alookup, if_neg hp]
        exact ih

theorem alookup_aset_ne {β : Type} {k j : String} (hkj : j ≠ k) (v : β)
    (l : List (String × β)) : alookup k (aset j v l) = alookup k l := by
  induction l with
  | nil => simp [aset, alookup, hkj]
  | cons p rest ih =>
      rw [aset]
      split
      · rename_i hp
        rw [alookup, if_neg hkj, alookup, if_neg (hp ▸ hkj)]
      · rw [alookup, alookup]
        split
        · rfl
        · exact ih

theorem alookup_amodify_self {β : Type} (k : String) (f : β → β) (l : List (String × β)) :
    alookup k (amodify k f l) = (alookup k l).map f := by
  induction l with
  | nil => simp [amodify, alookup]
  | cons p rest ih =>
      rw [amodify]
      split
      · rename_i hp
        rw [alookup, if_pos hp, alookup, if_pos hp]
        rfl
      · rename_i hp
        rw [alookup, if_neg hp, alookup, if_neg hp]
        exact ih

theorem alookup_amodify_ne {β : Type} {k j : String} (hkj : j ≠ k) (f : β → β)
    (l : List (String × β)) : alookup k (amodify j f l) = alookup k l := by
  induction l with
  | nil => simp [amodify]
  | cons p rest ih =>
      rw [amodify]
      split
      · rename_i hp
        rw [alookup, alookup]
        have : p.1 ≠ k := hp ▸ hkj
        rw [if_neg this, if_neg this]
      · rw [alookup, alookup]
        split
        · rfl
        · exact ih

theorem keys_amodify {β : Type} (j : String) (f : β → β) (l : List (String × β)) :
    (amodify j f l).map Prod.fst = l.map Prod.fst := by
  induction l with
  | nil => rfl
  | cons p rest ih =>
      rw [amodify]
      split
      · simp
      · simp [ih]

theorem alookup_aerase_self {β : Type} (k : String) (l : List (String × β))
    (hnd : (l.map Prod.fst).Nodup) : alookup k (aerase k l) = none := by
  induction l with
  | nil => rfl
  | cons p rest ih =>
      simp only [List.map_cons, List.nodup_cons] at hnd
      rw [aerase]
      split
      · rename_i hp
        subst hp
        apply alookup_none_of_not_mem_keys
        exact hnd.1
      · rename_i hp
        rw [alookup, if_neg hp]
        exact ih hnd.2

theorem alookup_aerase_ne {β : Type} {k j : String} (hkj : j ≠ k)
    (l : List (String × β)) : alookup k (aerase j l) = alookup k l := by
  induction l with
  | nil => rfl
  | cons p rest ih =>
      rw [aerase]
      split
      · rename_i hp
        rw [alookup, if_neg (hp ▸ hkj)]
      · rw [alookup, alookup]
        split
        · rfl
        · exact ih

theorem mem_aerase_sub {β : Type} {k : String} {l : List (String × β)} {pr : String × β}
    (h : pr ∈ aerase k l) : pr ∈ l := by
  induction l with
  | nil => simp [aerase] at h
  | cons p rest ih =>
      rw [aerase] at h
      split at h
      · exact List.mem_cons_of_mem _ h
      · rcases List.mem_cons.mp h with h1 | h1
        · exact h1 ▸ List.mem_cons_self _ _
        · exact List.mem_cons_of_mem _ (ih h1)

theorem alookup_setReasonAll {v : String} {k : String} :
    ∀ (ids : List String) (m : List (String × String)),
      alookup k (setReasonAll v ids m) = if k ∈ ids then some v else alookup k m := by
  intro ids
  induction ids with
  | nil => intro m; simp [setReasonAll]
  | cons i rest ih =>
      intro m
      have : setReasonAll v (i :: rest) m = setReasonAll v rest (aset i v m) := rfl
      rw [this, ih]
      by_cases hk : k ∈ rest
      · simp [hk, List.mem_cons]
      · by_cases hki : k = i
        · subst hki
          simp [hk, alookup_aset_self]
        · have : i ≠ k := fun h => hki h.symm
          simp [hk, hki, alookup_aset_ne this]

/-- Fold preservation: an invariant preserved by each step is preserved by
the whole fold. -/
theorem foldl_preserve {σ α : Type} {f : σ → α → σ} {P : σ → Prop} :
    ∀ {l : List α}, (∀ s a, a ∈ l → P s → P (f s a)) → ∀ {s}, P s → P (l.foldl f s) := by
  intro l
  induction l with
  | nil => intro _ s hs; exact hs
  | cons a rest ih =>
      intro h s hs
      rw [List.foldl_cons]
      exact ih (fun s' a' ha' => h s' a' (List.mem_cons_of_mem _ ha')) (h s a (List.mem_cons_self _ _) hs)

/-! ### Lemmas about the tick machinery -/

/-- `commitDir` touches only the `dir` field. -/
theorem commitDir_alive (pl : Player) : (commitDir pl).alive = pl.alive := by
  unfold commitDir; split <;> rfl

theorem commitDir_body (pl : Player) : (commitDir pl).body = pl.body := by
  unfold commitDir; split <;> rfl

theorem commitDir_score (pl : Player) : (commitDir pl).score = pl.score := by
  unfold commitDir; split <;> rfl

theorem commitDir_fc (pl : Player) : (commitDir pl).food_collected = pl.food_collected := by
  unfold commitDir; split <;> rfl

/-- The committed direction (server.py lines 232-237). -/
theorem commitDir_dir (pl : Player) :
    (commitDir pl).dir =
      if pl.pending_dir = (-pl.dir.1, -pl.dir.2) then pl.dir else pl.pending_dir := by
  unfold commitDir; split <;> rfl

theorem alookup_map_val {β γ : Type} (k : String) (f : String → β → γ)
    (l : List (String × β)) :
    alookup k (l.map (fun pr => (pr.1, f pr.1 pr.2))) = (alookup k l).map (f k) := by
  induction l with
  | nil => rfl
  | cons p rest ih =>
      rw [List.map_cons, alookup, alookup]
      by_cases hp : p.1 = k
      · subst hp
        simp
      · rw [if_neg hp, if_neg hp]
        exact ih

theorem keys_map_val {β γ : Type} (f : String → β → γ) (l : List (String × β)) :
    (l.map (fun pr => (pr.1, f pr.1 pr.2))).map Prod.fst = l.map Prod.fst := by
  induction l with
  | nil => rfl
  | cons p rest ih => simp [ih]

theorem commitPlayers_eq_map (ps : List (String × Player)) :
    commitPlayers ps =
      ps.map (fun pr => (pr.1, if pr.2.alive then commitDir pr.2 else pr.2)) := by
  unfold commitPlayers
  apply List.map_congr_left
  intro pr _
  by_cases h : pr.2.alive <;> simp [h]

theorem alookup_commitPlayers (k : String) (ps : List (String × Player)) :
    alookup k (commitPlayers ps) =
      (alookup k ps).map (fun pl => if pl.alive then commitDir pl else pl) := by
  rw [commitPlayers_eq_map]
  exact alookup_map_val k (fun _ pl => if pl.alive then commitDir pl else pl) ps

theorem keys_commitPlayers (ps : List (String × Player)) :
    (commitPlayers ps).map Prod.fst = ps.map Prod.fst := by
  rw [commitPlayers_eq_map]
  exact keys_map_val (fun _ pl => if pl.alive then commitDir pl else pl) ps

theorem mem_commitPlayers_of_mem {k : String} {pl : Player} {ps : List (String × Player)}
    (h : (k, pl) ∈ ps) :
    (k, if pl.alive then commitDir pl else pl) ∈ commitPlayers ps := by
  rw [commitPlayers_eq_map]
  exact List.mem_map.mpr ⟨(k, pl), h, rfl⟩

theorem mem_of_mem_commitPlayers {k : String} {pl1 : Player} {ps : List (String × Player)}
    (h : (k, pl1) ∈ commitPlayers ps) :
    ∃ pl, (k, pl) ∈ ps ∧ pl1 = (if pl.alive then commitDir pl else pl) := by
  rw [commitPlayers_eq_map] at h
  obtain ⟨pr, hpr, heq⟩ := List.mem_map.mp h
  obtain ⟨h1, h2⟩ := Prod.mk.injEq .. ▸ heq
  exact ⟨pr.2, by rw [← h1]; exact hpr, h2.symm⟩

theorem newHeads_cons (p : String × Player) (rest : List (String × Player)) :
    newHeads (p :: rest) =
      if p.2.alive then (p.1, projectHead p.2) :: newHeads rest else newHeads rest := by
  by_cases h : p.2.alive <;> simp [newHeads, List.filter_cons, h]

theorem alookup_newHeads {k : String} {pl : Player} {ps : List (String × Player)}
    (h : alookup k ps = some pl) (ha : pl.alive = true) :
    alookup k (newHeads ps) = some (projectHead pl) := by
  induction ps with
  | nil => simp [alookup] at h
  | cons p rest ih =>
      rw [alookup] at h
      rw [newHeads_cons]
      split at h
      · rename_i hp
        obtain rfl : p.2 = pl := Option.some.inj h
        rw [if_pos (by exact_mod_cast ha), alookup, if_pos hp]
      · rename_i hp
        split
        · rw [alookup, if_neg hp]
          exact ih h
        · exact ih h

theorem mem_newHeads {k : String} {h : Pos} {ps : List (String × Player)} :
    (k, h) ∈ newHeads ps ↔ ∃ pl, (k, pl) ∈ ps ∧ pl.alive = true ∧ h = projectHead pl := by
  constructor
  · intro hm
    obtain ⟨pr, hpr, hg⟩ := List.mem_map.mp hm
    obtain ⟨a, b⟩ := pr
    obtain ⟨hmem, hal⟩ := List.mem_filter.mp hpr
    obtain ⟨h1, h2⟩ := Prod.mk.injEq .. ▸ hg
    subst h1
    exact ⟨b, hmem, by exact_mod_cast hal, h2.symm⟩
  · rintro ⟨pl, hmem, hal, rfl⟩
    exact List.mem_map.mpr ⟨(k, pl), List.mem_filter.mpr ⟨hmem, by simp [hal]⟩, rfl⟩

theorem mem_aliveBodiesCells {c : Pos} {ps : List (String × Player)} :
    c ∈ aliveBodiesCells ps ↔ ∃ pr ∈ ps, pr.2.alive = true ∧ c ∈ pr.2.body := by
  induction ps with
  | nil => simp [aliveBodiesCells]
  | cons p rest ih =>
      have hcons : aliveBodiesCells (p :: rest) =
          if p.2.alive then p.2.body.toFinset ∪ aliveBodiesCells rest
          else aliveBodiesCells rest := by
        unfold aliveBodiesCells
        rw [List.foldr_cons]
      rw [hcons]
      by_cases ha : p.2.alive = true
      · rw [if_pos ha]
        simp only [Finset.mem_union, List.mem_toFinset, ih, List.mem_cons]
        constructor
        · rintro (hc | ⟨pr, hpr, hpa, hpc⟩)
          · exact ⟨p, Or.inl rfl, ha, hc⟩
          · exact ⟨pr, Or.inr hpr, hpa, hpc⟩
        · rintro ⟨pr, hpr | hpr, hpa, hpc⟩
          · exact Or.inl (hpr ▸ hpc)
          · exact Or.inr ⟨pr, hpr, hpa, hpc⟩
      · rw [if_neg ha]
        simp only [ih, List.mem_cons]
        constructor
        · rintro ⟨pr, hpr, hpa, hpc⟩
          exact ⟨pr, Or.inr hpr, hpa, hpc⟩
        · rintro ⟨pr, hpr | hpr, hpa, hpc⟩
          · rw [hpr] at hpa
            exact absurd hpa ha
          · exact ⟨pr, hpr, hpa, hpc⟩

theorem mem_deadCellsOf {c : Pos} {dead : Finset String} {ps : List (String × Player)} :
    c ∈ deadCellsOf dead ps ↔ ∃ pr ∈ ps, pr.1 ∈ dead ∧ c ∈ pr.2.body := by
  induction ps with
  | nil => simp [deadCellsOf]
  | cons p rest ih =>
      have hcons : deadCellsOf dead (p :: rest) =
          if p.1 ∈ dead then p.2.body.toFinset ∪ deadCellsOf dead rest
          else deadCellsOf dead rest := by
        unfold deadCellsOf
        rw [List.foldr_cons]
      rw [hcons]
      by_cases hd : p.1 ∈ dead
      · rw [if_pos hd]
        simp only [Finset.mem_union, List.mem_toFinset, ih, List.mem_cons]
        constructor
        · rintro (hc | ⟨pr, hpr, hpa, hpc⟩)
          · exact ⟨p, Or.inl rfl, hd, hc⟩
          · exact ⟨pr, Or.inr hpr, hpa, hpc⟩
        · rintro ⟨pr, hpr | hpr, hpa, hpc⟩
          · exact Or.inl (hpr ▸ hpc)
          · exact Or.inr ⟨pr, hpr, hpa, hpc⟩
      · rw [if_neg hd]
        simp only [ih, List.mem_cons]
        constructor
        · rintro ⟨pr, hpr, hpa, hpc⟩
          exact ⟨pr, Or.inr hpr, hpa, hpc⟩
        · rintro ⟨pr, hpr | hpr, hpa, hpc⟩
          · rw [hpr] at hpa
            exact absurd hpa hd
          · exact ⟨pr, hpr, hpa, hpc⟩

theorem mem_hhClash {x : String} {nhs : List (String × Pos)} {pid : String} {nh : Pos} :
    x ∈ hhClash nhs pid nh ↔ (x, nh) ∈ nhs ∧ x ≠ pid := by
  unfold hhClash
  constructor
  · intro hm
    obtain ⟨pr, hpr, hg⟩ := List.mem_map.mp hm
    obtain ⟨a, b⟩ := pr
    obtain ⟨hmem, hcond⟩ := List.mem_filter.mp hpr
    simp only [decide_eq_true_eq] at hcond
    obtain ⟨hne, hb⟩ := hcond
    subst hg
    subst hb
    exact ⟨hmem, hne⟩
  · rintro ⟨hmem, hne⟩
    exact List.mem_map.mpr ⟨(x, nh), List.mem_filter.mpr ⟨hmem, by simp [hne]⟩, rfl⟩

/-! ### Phase-3 stage lemmas -/

/-- Forget the `food_collected` field (the only player field the collision
loop of server.py lines 254-296 mutates). -/
def clearFC (pl : Player) : Player := { pl with food_collected := 0 }

theorem clearFC_bump (q : Player) :
    clearFC { q with food_collected := q.food_collected + 1 } = clearFC q := rfl

theorem p3food_dead (s : P3) (pid : String) (nh : Pos) : (p3food s pid nh).dead = s.dead := by
  unfold p3food; split <;> rfl

theorem p3food_reasons (s : P3) (pid : String) (nh : Pos) :
    (p3food s pid nh).reasons = s.reasons := by
  unfold p3food; split <;> rfl

theorem p3food_grow (s : P3) (pid : String) (nh : Pos) :
    (p3food s pid nh).grow = if nh ∈ s.food then s.grow ++ [pid] else s.grow := by
  unfold p3food; split <;> simp_all

theorem p3food_food_sub {c : Pos} (s : P3) (pid : String) (nh : Pos)
    (h : c ∈ (p3food s pid nh).food) : c ∈ s.food := by
  unfold p3food at h
  split at h
  · exact (s.food.erase_subset nh) h
  · exact h

theorem p3food_temp_sub (s : P3) (pid : String) (nh : Pos) :
    (p3food s pid nh).temp ⊆ s.temp := by
  unfold p3food
  split
  · exact Finset.erase_subset nh s.temp
  · exact Finset.Subset.refl _

theorem p3food_temp_erased {c : Pos} (s : P3) (pid : String) (nh : Pos)
    (hc : c ∈ s.temp) (h : c ∉ (p3food s pid nh).temp) : c ∈ s.food := by
  unfold p3food at h
  split at h
  · rename_i hf
    by_cases hcn : c = nh
    · exact hcn ▸ hf
    · exact absurd (Finset.mem_erase.mpr ⟨hcn, hc⟩) h
  · exact absurd hc h

theorem p3food_food_preserve {c : Pos} (s : P3) (pid : String) (nh : Pos)
    (hc : c ∈ s.food) (hne : nh ≠ c) : c ∈ (p3food s pid nh).food := by
  unfold p3food
  split
  · exact List.mem_erase_of_ne (fun h => hne h.symm) |>.mpr hc
  · exact hc

theorem p3food_players_view (s : P3) (pid : String) (nh : Pos) (k : String) :
    (alookup k (p3food s pid nh).players).map clearFC = (alookup k s.players).map clearFC := by
  unfold p3food
  split
  · show (alookup k (amodify pid _ s.players)).map clearFC = _
    by_cases hk : pid = k
    · subst hk
      rw [alookup_amodify_self]
      cases alookup pid s.players with
      | none => rfl
      | some q => simp [clearFC_bump q]
    · rw [alookup_amodify_ne hk]
  · rfl

theorem p3food_keys (s : P3) (pid : String) (nh : Pos) :
    (p3food s pid nh).players.map Prod.fst = s.players.map Prod.fst := by
  unfold p3food
  split
  · exact keys_amodify pid _ s.players
  · rfl

theorem p3heads_players (nhs : List (String × Pos)) (s : P3) (pid : String) (nh : Pos) :
    (p3heads nhs s pid nh).players = s.players := by
  unfold p3heads; split <;> rfl

theorem p3heads_food (nhs : List (String × Pos)) (s : P3) (pid : String) (nh : Pos) :
    (p3heads nhs s pid nh).food = s.food := by
  unfold p3heads; split <;> rfl

theorem p3heads_temp (nhs : List (String × Pos)) (s : P3) (pid : String) (nh : Pos) :
    (p3heads nhs s pid nh).temp = s.temp := by
  unfold p3heads; split <;> rfl

theorem p3heads_grow (nhs : List (String × Pos)) (s : P3) (pid : String) (nh : Pos) :
    (p3heads nhs s pid nh).grow = s.grow := by
  unfold p3heads; split <;> rfl

theorem p3heads_dead_mono (nhs : List (String × Pos)) (s : P3) (pid : String) (nh : Pos) :
    s.dead ⊆ (p3heads nhs s pid nh).dead := by
  unfold p3heads
  split
  · exact Finset.Subset.refl _
  · intro x hx
    exact Finset.mem_union_left _ (Finset.mem_insert_of_mem hx)

theorem p3heads_dead_new {x : String} (nhs : List (String × Pos)) (s : P3) (pid : String)
    (nh : Pos) (h : x ∈ (p3heads nhs s pid nh).dead) :
    x ∈ s.dead ∨ x = pid ∨ ((x, nh) ∈ nhs ∧ x ≠ pid) := by
  unfold p3heads at h
  split at h
  · exact Or.inl h
  · rcases Finset.mem_union.mp h with h1 | h1
    · rcases Finset.mem_insert.mp h1 with h2 | h2
      · exact Or.inr (Or.inl h2)
      · exact Or.inl h2
    · exact Or.inr (Or.inr (mem_hhClash.mp (List.mem_toFinset.mp h1)))

theorem p3heads_hc_preserve {x : String} (nhs : List (String × Pos)) (s : P3) (pid : String)
    (nh : Pos) (h : alookup x s.reasons = some "head_collision") :
    alookup x (p3heads nhs s pid nh).reasons = some "head_collision" := by
  unfold p3heads
  split
  · exact h
  · show alookup x (setReasonAll "head_collision" _ s.reasons) = _
    rw [alookup_setReasonAll]
    split
    · rfl
    · exact h

theorem p3heads_reasons_of_ne {x : String} (nhs : List (String × Pos)) (s : P3) (pid : String)
    (nh : Pos) (hx : x ≠ pid) (hnc : (x, nh) ∉ nhs) :
    alookup x (p3heads nhs s pid nh).reasons = alookup x s.reasons := by
  unfold p3heads
  split
  · rfl
  · show alookup x (setReasonAll "head_collision" _ s.reasons) = _
    rw [alookup_setReasonAll]
    rw [if_neg]
    intro hmem
    rcases List.mem_cons.mp hmem with h1 | h1
    · exact hx h1
    · exact hnc (mem_hhClash.mp h1).1

theorem p3body_players (s : P3) (pid : String) (pl : Player) (nh : Pos) :
    (p3body s pid pl nh).players = s.players := by
  unfold p3body
  split
  · rfl
  · split <;> rfl

theorem p3body_food (s : P3) (pid : String) (pl : Player) (nh : Pos) :
    (p3body s pid pl nh).food = s.food := by
  unfold p3body
  split
  · rfl
  · split <;> rfl

theorem p3body_temp (s : P3) (pid : String) (pl : Player) (nh : Pos) :
    (p3body s pid pl nh).temp = s.temp := by
  unfold p3body
  split
  · rfl
  · split <;> rfl

theorem p3body_grow (s : P3) (pid : String) (pl : Player) (nh : Pos) :
    (p3body s pid pl nh).grow = s.grow := by
  unfold p3body
  split
  · rfl
  · split <;> rfl

theorem p3body_dead_mono (s : P3) (pid : String) (pl : Player) (nh : Pos) :
    s.dead ⊆ (p3body s pid pl nh).dead := by
  unfold p3body
  split
  · exact Finset.Subset.refl _
  · split
    · exact Finset.subset_insert _ _
    · exact Finset.Subset.refl _

theorem p3body_dead_new {x : String} (s : P3) (pid : String) (pl : Player) (nh : Pos)
    (h : x ∈ (p3body s pid pl nh).dead) : x ∈ s.dead ∨ x = pid := by
  unfold p3body at h
  split at h
  · exact Or.inl h
  · split at h
    · rcases Finset.mem_insert.mp h with h1 | h1
      · exact Or.inr h1
      · exact Or.inl h1
    · exact Or.inl h

theorem p3body_reasons_of_dead {x : String} (s : P3) (pid : String) (pl : Player) (nh : Pos)
    (hx : x ∈ s.dead) :
    alookup x (p3body s pid pl nh).reasons = alookup x s.reasons := by
  unfold p3body
  split
  · rfl
  · rename_i hpid
    split
    · show alookup x (aset pid _ s.reasons) = _
      rw [alookup_aset_ne]
      intro he
      exact hpid (he ▸ hx)
    · rfl

theorem p3body_reasons_of_ne {x : String} (s : P3) (pid : String) (pl : Player) (nh : Pos)
    (hx : x ≠ pid) :
    alookup x (p3body s pid pl nh).reasons = alookup x s.reasons := by
  unfold p3body
  split
  · rfl
  · split
    · show alookup x (aset pid _ s.reasons) = _
      rw [alookup_aset_ne (fun he => hx he.symm)]
    · rfl

/-! ### `p3one`-level lemmas -/

theorem p3one_skip {nhs : List (String × Pos)} {s : P3} {pr : String × Player}
    (h : pr.2.alive = false ∨ alookup pr.1 nhs = none) : p3one nhs s pr = s := by
  unfold p3one
  rcases h with h | h
  · rw [h]
    rfl
  · rw [h]
    split <;> rfl

theorem p3one_eq {nhs : List (String × Pos)} {s : P3} {pr : String × Player} {nh : Pos}
    (ha : pr.2.alive = true) (hl : alookup pr.1 nhs = some nh) :
    p3one nhs s pr = p3body (p3heads nhs (p3food s pr.1 nh) pr.1 nh) pr.1 pr.2 nh := by
  unfold p3one
  rw [ha, hl]
  rfl

theorem p3one_dead_mono (nhs : List (String × Pos)) (s : P3) (pr : String × Player) :
    s.dead ⊆ (p3one nhs s pr).dead := by
  by_cases ha : pr.2.alive = true
  · cases hl : alookup pr.1 nhs with
    | none => rw [p3one_skip (Or.inr hl)]
    | some nh =>
        rw [p3one_eq ha hl]
        intro x hx
        apply p3body_dead_mono
        apply p3heads_dead_mono
        rw [p3food_dead]
        exact hx
  · rw [p3one_skip (Or.inl (Bool.not_eq_true _ ▸ ha))]

theorem p3one_food_sub {c : Pos} (nhs : List (String × Pos)) (s : P3) (pr : String × Player)
    (h : c ∈ (p3one nhs s pr).food) : c ∈ s.food := by
  by_cases ha : pr.2.alive = true
  · cases hl : alookup pr.1 nhs with
    | none => rw [p3one_skip (Or.inr hl)] at h; exact h
    | some nh =>
        rw [p3one_eq ha hl, p3body_food, p3heads_food] at h
        exact p3food_food_sub s pr.1 nh h
  · rw [p3one_skip (Or.inl (Bool.not_eq_true _ ▸ ha))] at h
    exact h

theorem p3one_temp_erased {c : Pos} (nhs : List (String × Pos)) (s : P3) (pr : String × Player)
    (hc : c ∈ s.temp) (h : c ∉ (p3one nhs s pr).temp) : c ∈ s.food := by
  by_cases ha : pr.2.alive = true
  · cases hl : alookup pr.1 nhs with
    | none => rw [p3one_skip (Or.inr hl)] at h; exact absurd hc h
    | some nh =>
        rw [p3one_eq ha hl, p3body_temp, p3heads_temp] at h
        exact p3food_temp_erased s pr.1 nh hc h
  · rw [p3one_skip (Or.inl (Bool.not_eq_true _ ▸ ha))] at h
    exact absurd hc h

theorem p3one_grow_mono {x : String} (nhs : List (String × Pos)) (s : P3) (pr : String × Player)
    (h : x ∈ s.grow) : x ∈ (p3one nhs s pr).grow := by
  by_cases ha : pr.2.alive = true
  · cases hl : alookup pr.1 nhs with
    | none => rw [p3one_skip (Or.inr hl)]; exact h
    | some nh =>
        rw [p3one_eq ha hl, p3body_grow, p3heads_grow, p3food_grow]
        split
        · exact List.mem_append_left _ h
        · exact h
  · rw [p3one_skip (Or.inl (Bool.not_eq_true _ ▸ ha))]
    exact h

theorem p3one_grow_new {x : String} (nhs : List (String × Pos)) (s : P3) (pr : String × Player)
    (h : x ∈ (p3one nhs s pr).grow) : x ∈ s.grow ∨ x = pr.1 := by
  by_cases ha : pr.2.alive = true
  · cases hl : alookup pr.1 nhs with
    | none => rw [p3one_skip (Or.inr hl)] at h; exact Or.inl h
    | some nh =>
        rw [p3one_eq ha hl, p3body_grow, p3heads_grow, p3food_grow] at h
        split at h
        · rcases List.mem_append.mp h with h1 | h1
          · exact Or.inl h1
          · exact Or.inr (by simpa using h1)
        · exact Or.inl h
  · rw [p3one_skip (Or.inl (Bool.not_eq_true _ ▸ ha))] at h
    exact Or.inl h

theorem p3one_dead_new {x : String} (nhs : List (String × Pos)) (s : P3) (pr : String × Player)
    (h : x ∈ (p3one nhs s pr).dead) :
    x ∈ s.dead ∨ pr.2.alive = true ∧ (x = pr.1 ∨ ∃ hp, (x, hp) ∈ nhs) := by
  by_cases ha : pr.2.alive = true
  · cases hl : alookup pr.1 nhs with
    | none => rw [p3one_skip (Or.inr hl)] at h; exact Or.inl h
    | some nh =>
        rw [p3one_eq ha hl] at h
        rcases p3body_dead_new _ pr.1 pr.2 nh h with h1 | h1
        · rcases p3heads_dead_new nhs _ pr.1 nh h1 with h2 | h2 | h2
          · rw [p3food_dead] at h2
            exact Or.inl h2
          · exact Or.inr ⟨ha, Or.inl h2⟩
          · exact Or.inr ⟨ha, Or.inr ⟨nh, h2.1⟩⟩
        · exact Or.inr ⟨ha, Or.inl h1⟩
  · rw [p3one_skip (Or.inl (Bool.not_eq_true _ ▸ ha))] at h
    exact Or.inl h

theorem p3one_players_view (nhs : List (String × Pos)) (s : P3) (pr : String × Player)
    (k : String) :
    (alookup k (p3one nhs s pr).players).map clearFC = (alookup k s.players).map clearFC := by
  by_cases ha : pr.2.alive = true
  · cases hl : alookup pr.1 nhs with
    | none => rw [p3one_skip (Or.inr hl)]
    | some nh =>
        rw [p3one_eq ha hl, p3body_players, p3heads_players]
        exact p3food_players_view s pr.1 nh k
  · rw [p3one_skip (Or.inl (Bool.not_eq_true _ ▸ ha))]

theorem p3one_keys (nhs : List (String × Pos)) (s : P3) (pr : String × Player) :
    (p3one nhs s pr).players.map Prod.fst = s.players.map Prod.fst := by
  by_cases ha : pr.2.alive = true
  · cases hl : alookup pr.1 nhs with
    | none => rw [p3one_skip (Or.inr hl)]
    | some nh =>
        rw [p3one_eq ha hl, p3body_players, p3heads_players]
        exact p3food_keys s pr.1 nh
  · rw [p3one_skip (Or.inl (Bool.not_eq_true _ ▸ ha))]

/-- Once a player is recorded dead with cause `"head_collision"`, the rest of
the collision loop keeps both facts. -/
theorem p3one_hc_preserve {x : String} (nhs : List (String × Pos)) (s : P3)
    (pr : String × Player)
    (h : x ∈ s.dead ∧ alookup x s.reasons = some "head_collision") :
    x ∈ (p3one nhs s pr).dead ∧
      alookup x (p3one nhs s pr).reasons = some "head_collision" := by
  by_cases ha : pr.2.alive = true
  · cases hl : alookup pr.1 nhs with
    | none => rw [p3one_skip (Or.inr hl)]; exact h
    | some nh =>
        rw [p3one_eq ha hl]
        have hdead : x ∈ (p3heads nhs (p3food s pr.1 nh) pr.1 nh).dead := by
          apply p3heads_dead_mono
          rw [p3food_dead]
          exact h.1
        constructor
        · exact p3body_dead_mono _ pr.1 pr.2 nh hdead
        · rw [p3body_reasons_of_dead _ pr.1 pr.2 nh hdead]
          apply p3heads_hc_preserve
          rw [p3food_reasons]
          exact h.2
  · rw [p3one_skip (Or.inl (Bool.not_eq_true _ ▸ ha))]
    exact h

/-- A food cell survives the processing of a player whose projected head is a
different cell. -/
theorem p3one_food_preserve {c : Pos} (nhs : List (String × Pos)) (s : P3)
    (pr : String × Player) (hc : c ∈ s.food)
    (hne : ∀ nh, alookup pr.1 nhs = some nh → nh ≠ c) :
    c ∈ (p3one nhs s pr).food := by
  by_cases ha : pr.2.alive = true
  · cases hl : alookup pr.1 nhs with
    | none => rw [p3one_skip (Or.inr hl)]; exact hc
    | some nh =>
        rw [p3one_eq ha hl, p3body_food, p3heads_food]
        exact p3food_food_preserve s pr.1 nh hc (hne nh hl)
  · rw [p3one_skip (Or.inl (Bool.not_eq_true _ ▸ ha))]
    exact hc

/-- A player distinct from the processed one, whose projected head cannot
clash with the processed player's head, is not newly recorded dead. -/
theorem p3one_dead_not_added {x : String} (nhs : List (String × Pos)) (s : P3)
    (pr : String × Player) (hx : x ∉ s.dead) (hne : x ≠ pr.1)
    (hnc : ∀ hp nh, (x, hp) ∈ nhs → alookup pr.1 nhs = some nh → hp ≠ nh) :
    x ∉ (p3one nhs s pr).dead := by
  by_cases ha : pr.2.alive = true
  · cases hl : alookup pr.1 nhs with
    | none => rw [p3one_skip (Or.inr hl)]; exact hx
    | some nh =>
        rw [p3one_eq ha hl]
        intro h
        rcases p3body_dead_new _ pr.1 pr.2 nh h with h1 | h1
        · rcases p3heads_dead_new nhs _ pr.1 nh h1 with h2 | h2 | h2
          · rw [p3food_dead] at h2
            exact hx h2
          · exact hne h2
          · exact hnc nh nh h2.1 hl rfl
        · exact hne h1
  · rw [p3one_skip (Or.inl (Bool.not_eq_true _ ▸ ha))]
    exact hx

theorem p3one_grow_not_added {x : String} (nhs : List (String × Pos)) (s : P3)
    (pr : String × Player) (hx : x ∉ s.grow) (hne : x ≠ pr.1) :
    x ∉ (p3one nhs s pr).grow := by
  intro h
  rcases p3one_grow_new nhs s pr h with h1 | h1
  · exact hx h1
  · exact hne h1

/-! ### Phase-3 fold lemmas -/

/-- The initial `P3` state of the collision loop (server.py lines 245-255). -/
def phase3init (st : GameState) : P3 :=
  { players := commitPlayers st.players
    food := st.food
    temp := aliveBodiesCells (commitPlayers st.players) ∪ st.food.toFinset
    grow := []
    dead := ∅
    reasons := st.death_reasons }

theorem phase3_eq (st : GameState) :
    st.phase3 =
      (commitPlayers st.players).foldl (p3one (newHeads (commitPlayers st.players)))
        (phase3init st) := rfl

/-- The `new_heads` entry of a player found by dict lookup. -/
theorem alookup_nhs {st : GameState} {p : String} {plp : Player}
    (hp : alookup p st.players = some plp) (hpa : plp.alive = true) :
    alookup p (newHeads (commitPlayers st.players)) = some (projectHead (commitDir plp)) := by
  have h1 : alookup p (commitPlayers st.players) = some (commitDir plp) := by
    rw [alookup_commitPlayers, hp]
    simp [hpa]
  exact alookup_newHeads h1 (by rw [commitDir_alive]; exact hpa)

theorem mem_nhs_of_mem {st : GameState} {q : String} {plq : Player}
    (hq : (q, plq) ∈ st.players) (hqa : plq.alive = true) :
    (q, projectHead (commitDir plq)) ∈ newHeads (commitPlayers st.players) := by
  have h1 : (q, commitDir plq) ∈ commitPlayers st.players := by
    have h2 := mem_commitPlayers_of_mem hq
    rwa [if_pos hqa] at h2
  exact mem_newHeads.mpr ⟨commitDir plq, h1, by rw [commitDir_alive]; exact hqa, rfl⟩

theorem mem_nhs_elim {st : GameState} {x : String} {h : Pos}
    (hm : (x, h) ∈ newHeads (commitPlayers st.players)) :
    ∃ plx, (x, plx) ∈ st.players ∧ plx.alive = true ∧ h = projectHead (commitDir plx) := by
  obtain ⟨pl1, hmem, hal, rfl⟩ := mem_newHeads.mp hm
  obtain ⟨plx, hpx, heq⟩ := mem_of_mem_commitPlayers hmem
  by_cases hpa : plx.alive = true
  · rw [if_pos hpa] at heq
    exact ⟨plx, hpx, hpa, by rw [heq]⟩
  · rw [if_neg hpa] at heq
    rw [heq] at hal
    exact absurd hal hpa

/-- Splitting the collision loop at a player's own iteration. -/
theorem phase3_split {st : GameState} {p : String} {plp : Player}
    (hp : alookup p st.players = some plp) (hpa : plp.alive = true) :
    ∃ l1 l2,
      st.players = l1 ++ (p, plp) :: l2 ∧ (∀ pr ∈ l1, pr.1 ≠ p) ∧
      st.phase3 =
        (commitPlayers l2).foldl (p3one (newHeads (commitPlayers st.players)))
          (p3one (newHeads (commitPlayers st.players))
            ((commitPlayers l1).foldl (p3one (newHeads (commitPlayers st.players)))
              (phase3init st))
            (p, commitDir plp)) := by
  obtain ⟨l1, l2, hsplit, hl1⟩ := alookup_split hp
  refine ⟨l1, l2, hsplit, hl1, ?_⟩
  have hps : commitPlayers st.players =
      commitPlayers l1 ++ (p, commitDir plp) :: commitPlayers l2 := by
    conv_lhs => rw [hsplit]
    unfold commitPlayers
    rw [List.map_append, List.map_cons]
    simp [hpa]
  rw [phase3_eq, hps, List.foldl_append, List.foldl_cons]

/-- The head-to-head stage records the player and every clashing other as
dead with cause `"head_collision"`. -/
theorem p3heads_clash {nhs : List (String × Pos)} {s : P3} {pid : String} {nh : Pos}
    {q : String} (hq : q ∈ hhClash nhs pid nh) :
    (pid ∈ (p3heads nhs s pid nh).dead ∧
      alookup pid (p3heads nhs s pid nh).reasons = some "head_collision") ∧
    (q ∈ (p3heads nhs s pid nh).dead ∧
      alookup q (p3heads nhs s pid nh).reasons = some "head_collision") := by
  unfold p3heads
  rw [if_neg (by intro h; rw [h] at hq; simp at hq)]
  refine ⟨⟨?_, ?_⟩, ?_, ?_⟩
  · exact Finset.mem_union_left _ (Finset.mem_insert_self _ _)
  · show alookup pid (setReasonAll "head_collision" _ s.reasons) = _
    rw [alookup_setReasonAll, if_pos (List.mem_cons_self _ _)]
  · exact Finset.mem_union_right _ (List.mem_toFinset.mpr hq)
  · show alookup q (setReasonAll "head_collision" _ s.reasons) = _
    rw [alookup_setReasonAll, if_pos (List.mem_cons_of_mem _ hq)]

theorem p3one_clash {nhs : List (String × Pos)} {s : P3} {pr : String × Player} {nh : Pos}
    {q : String} (ha : pr.2.alive = true) (hl : alookup pr.1 nhs = some nh)
    (hq : q ∈ hhClash nhs pr.1 nh) :
    (pr.1 ∈ (p3one nhs s pr).dead ∧
      alookup pr.1 (p3one nhs s pr).reasons = some "head_collision") ∧
    (q ∈ (p3one nhs s pr).dead ∧
      alookup q (p3one nhs s pr).reasons = some "head_collision") := by
  rw [p3one_eq ha hl]
  have h1 := p3heads_clash (s := p3food s pr.1 nh) hq
  constructor
  · exact ⟨p3body_dead_mono _ _ _ _ h1.1.1,
      by rw [p3body_reasons_of_dead _ _ _ _ h1.1.1]; exact h1.1.2⟩
  · exact ⟨p3body_dead_mono _ _ _ _ h1.2.1,
      by rw [p3body_reasons_of_dead _ _ _ _ h1.2.1]; exact h1.2.2⟩

/-- Two distinct alive players projecting the same head cell are both
recorded dead with cause `"head_collision"` by the collision loop, whatever
the iteration order. -/
theorem clash_dead {st : GameState} {p q : String} {plp plq : Player}
    (hp : alookup p st.players = some plp) (hq : (q, plq) ∈ st.players)
    (hqp : q ≠ p) (hpa : plp.alive = true) (hqa : plq.alive = true)
    (hh : projectHead (commitDir plq) = projectHead (commitDir plp)) :
    (p ∈ st.phase3.dead ∧ alookup p st.phase3.reasons = some "head_collision") ∧
    (q ∈ st.phase3.dead ∧ alookup q st.phase3.reasons = some "head_collision") := by
  obtain ⟨l1, l2, hsplit, hl1, hph⟩ := phase3_split hp hpa
  rw [hph]
  have hqclash : q ∈ hhClash (newHeads (commitPlayers st.players)) p
      (projectHead (commitDir plp)) := by
    rw [mem_hhClash]
    exact ⟨hh ▸ mem_nhs_of_mem hq hqa, hqp⟩
  have hstep := @p3one_clash (newHeads (commitPlayers st.players))
    ((commitPlayers l1).foldl (p3one (newHeads (commitPlayers st.players))) (phase3init st))
    (p, commitDir plp) (projectHead (commitDir plp)) q
    (by rw [commitDir_alive]; exact hpa) (alookup_nhs hp hpa) hqclash
  have hgood := foldl_preserve
    (f := p3one (newHeads (commitPlayers st.players)))
    (P := fun s => (p ∈ s.dead ∧ alookup p s.reasons = some "head_collision") ∧
      (q ∈ s.dead ∧ alookup q s.reasons = some "head_collision"))
    (l := commitPlayers l2)
    (fun s a _ hs => ⟨p3one_hc_preserve _ s a hs.1, p3one_hc_preserve _ s a hs.2⟩)
    hstep
  exact hgood

/-- A player not recorded dead by the loop has no head-to-head partner. -/
theorem no_clash_of_surv {st : GameState} {p q : String} {plp plq : Player}
    (hp : alookup p st.players = some plp) (hq : (q, plq) ∈ st.players)
    (hqp : q ≠ p) (hpa : plp.alive = true) (hqa : plq.alive = true)
    (hsurv : p ∉ st.phase3.dead) :
    projectHead (commitDir plq) ≠ projectHead (commitDir plp) :=
  fun hh => hsurv (clash_dead hp hq hqp hpa hqa hh).1.1

theorem phase3_players_view (st : GameState) (k : String) :
    (alookup k st.phase3.players).map clearFC =
      (alookup k (commitPlayers st.players)).map clearFC := by
  rw [phase3_eq]
  exact foldl_preserve
    (f := p3one (newHeads (commitPlayers st.players)))
    (P := fun s => (alookup k s.players).map clearFC =
      (alookup k (commitPlayers st.players)).map clearFC)
    (fun s a _ hs => by dsimp only; rw [p3one_players_view]; exact hs) rfl

theorem phase3_keys (st : GameState) :
    st.phase3.players.map Prod.fst = st.players.map Prod.fst := by
  rw [phase3_eq]
  have h := foldl_preserve
    (f := p3one (newHeads (commitPlayers st.players)))
    (P := fun s => s.players.map Prod.fst = st.players.map Prod.fst)
    (l := commitPlayers st.players)
    (fun s a _ hs => by dsimp only; rw [p3one_keys]; exact hs)
    (s := phase3init st) (keys_commitPlayers st.players)
  exact h

theorem phase3_food_sub (st : GameState) : ∀ c ∈ st.phase3.food, c ∈ st.food := by
  rw [phase3_eq]
  exact foldl_preserve
    (f := p3one (newHeads (commitPlayers st.players)))
    (P := fun s => ∀ c ∈ s.food, c ∈ st.food)
    (fun s a _ hs c hc => hs c (p3one_food_sub _ s a hc))
    (fun c hc => hc)

/-- Everything the loop records dead is an alive player of the pre-state. -/
theorem phase3_dead_alive (st : GameState) :
    ∀ x ∈ st.phase3.dead, ∃ plx, (x, plx) ∈ st.players ∧ plx.alive = true := by
  rw [phase3_eq]
  apply foldl_preserve
    (f := p3one (newHeads (commitPlayers st.players)))
    (P := fun s => ∀ x ∈ s.dead, ∃ plx, (x, plx) ∈ st.players ∧ plx.alive = true)
  · intro s a ha hs x hx
    obtain ⟨a1, a2⟩ := a
    rcases p3one_dead_new _ s (a1, a2) hx with h1 | ⟨haa, h1 | h1⟩
    · exact hs x h1
    · subst h1
      obtain ⟨pl0, hpl0, heq⟩ := mem_of_mem_commitPlayers ha
      refine ⟨pl0, hpl0, ?_⟩
      by_cases hb : pl0.alive = true
      · exact hb
      · rw [if_neg hb] at heq
        have haa' : a2.alive = true := haa
        rw [heq] at haa'
        exact absurd haa' hb
    · obtain ⟨hp, hmem⟩ := h1
      obtain ⟨plx, hpx, hpa, _⟩ := mem_nhs_elim hmem
      exact ⟨plx, hpx, hpa⟩
  · intro x hx
    exact absurd hx (Finset.not_mem_empty x)

theorem getLastD_mem {α : Type} : ∀ (l : List α) (d : α), l ≠ [] → l.getLastD d ∈ l := by
  intro l
  induction l with
  | nil => intro d h; exact absurd rfl h
  | cons a rest ih =>
      intro d _
      rw [List.getLastD_cons]
      cases rest with
      | nil => simp [List.getLastD]
      | cons b r => exact List.mem_cons_of_mem _ (ih a (by simp))

theorem p3heads_self_dead {nhs : List (String × Pos)} {s : P3} {pid : String} {nh : Pos}
    (h : hhClash nhs pid nh ≠ []) : pid ∈ (p3heads nhs s pid nh).dead := by
  unfold p3heads
  rw [if_neg h]
  exact Finset.mem_union_left _ (Finset.mem_insert_self _ _)

theorem p3heads_skip {nhs : List (String × Pos)} {s : P3} {pid : String} {nh : Pos}
    (h : hhClash nhs pid nh = []) : p3heads nhs s pid nh = s := by
  unfold p3heads
  rw [if_pos h]

theorem p3body_dead_of_cond {s : P3} {pid : String} {pl : Player} {nh : Pos}
    (hd : pid ∉ s.dead) (ht : nh ∈ s.temp) (he : nh ∉ p3excluded s pid pl) :
    pid ∈ (p3body s pid pl nh).dead := by
  unfold p3body
  rw [if_neg hd, if_pos ⟨ht, he⟩]
  exact Finset.mem_insert_self _ _

/-- A player the collision loop does not record dead has a projected head
that avoids every *other* alive player's pre-move body (under disjointness
and food-clearance of the pre-state).  This is the body-collision check of
server.py lines 283-296 doing its job. -/
theorem survivor_head_clear {st : GameState} {p q : String} {plp plq : Player}
    (had : AliveDisjoint st) (hfc : FoodClear st)
    (hp : alookup p st.players = some plp) (hq : (q, plq) ∈ st.players)
    (hqp : q ≠ p) (hpa : plp.alive = true) (hqa : plq.alive = true)
    (hsurv : p ∉ st.phase3.dead) :
    projectHead (commitDir plp) ∉ plq.body := by
  intro hmem
  have hnf : projectHead (commitDir plp) ∉ st.food :=
    fun hf => hfc (q, plq) hq hqa (projectHead (commitDir plp)) hf hmem
  obtain ⟨l1, l2, hsplit, hl1, hph⟩ := phase3_split hp hpa
  have hInv : (∀ c ∈ plq.body, c ∈ ((commitPlayers l1).foldl
        (p3one (newHeads (commitPlayers st.players))) (phase3init st)).temp) ∧
      (∀ c ∈ ((commitPlayers l1).foldl
        (p3one (newHeads (commitPlayers st.players))) (phase3init st)).food, c ∈ st.food) := by
    apply foldl_preserve
      (f := p3one (newHeads (commitPlayers st.players)))
      (P := fun s => (∀ c ∈ plq.body, c ∈ s.temp) ∧ (∀ c ∈ s.food, c ∈ st.food))
    · intro s a _ hs
      constructor
      · intro c hc
        by_cases hct : c ∈ (p3one (newHeads (commitPlayers st.players)) s a).temp
        · exact hct
        · exact absurd hc
            (hfc (q, plq) hq hqa c
              (hs.2 c (p3one_temp_erased _ s a (hs.1 c hc) hct)))
      · intro c hc
        exact hs.2 c (p3one_food_sub _ s a hc)
    · constructor
      · intro c hc
        show c ∈ aliveBodiesCells (commitPlayers st.players) ∪ st.food.toFinset
        apply Finset.mem_union_left
        rw [mem_aliveBodiesCells]
        refine ⟨(q, commitDir plq), ?_, ?_, ?_⟩
        · have h2 := mem_commitPlayers_of_mem hq
          rwa [if_pos hqa] at h2
        · rw [commitDir_alive]; exact hqa
        · rw [commitDir_body]; exact hc
      · intro c hc
        exact hc
  have hpd : p ∉ (p3one (newHeads (commitPlayers st.players))
      ((commitPlayers l1).foldl (p3one (newHeads (commitPlayers st.players)))
        (phase3init st)) (p, commitDir plp)).dead := by
    intro hd
    apply hsurv
    rw [hph]
    exact foldl_preserve (f := p3one (newHeads (commitPlayers st.players)))
      (P := fun s => p ∈ s.dead)
      (fun s a _ hs => p3one_dead_mono _ s a hs) hd
  apply hpd
  rw [p3one_eq (by rw [commitDir_alive]; exact hpa) (alookup_nhs hp hpa)]
  have hfskip : p3food ((commitPlayers l1).foldl
      (p3one (newHeads (commitPlayers st.players))) (phase3init st)) p
      (projectHead (commitDir plp)) =
      (commitPlayers l1).foldl (p3one (newHeads (commitPlayers st.players))) (phase3init st) := by
    unfold p3food
    rw [if_neg (fun hf => hnf (hInv.2 _ hf))]
  rw [hfskip]
  by_cases hcl : hhClash (newHeads (commitPlayers st.players)) p
      (projectHead (commitDir plp)) = []
  · have hhskip : p3heads (newHeads (commitPlayers st.players))
        ((commitPlayers l1).foldl (p3one (newHeads (commitPlayers st.players)))
          (phase3init st)) p (projectHead (commitDir plp)) =
        (commitPlayers l1).foldl (p3one (newHeads (commitPlayers st.players)))
          (phase3init st) := by
      unfold p3heads
      rw [if_pos hcl]
    rw [hhskip]
    by_cases hdm : p ∈ ((commitPlayers l1).foldl
        (p3one (newHeads (commitPlayers st.players))) (phase3init st)).dead
    · exact p3body_dead_mono _ _ _ _ hdm
    · apply p3body_dead_of_cond hdm (hInv.1 _ hmem)
      intro hexc
      unfold p3excluded at hexc
      split at hexc
      · exact absurd hexc (Finset.not_mem_empty _)
      · split at hexc
        · exact absurd hexc (Finset.not_mem_empty _)
        · rename_i hbody
          rw [commitDir_body] at hbody hexc
          have htail : projectHead (commitDir plp) ∈ plp.body := by
            have h2 := Finset.mem_singleton.mp hexc
            rw [h2]
            exact getLastD_mem plp.body (0, 0) hbody
          exact had (p, plp) (alookup_mem hp) (q, plq) hq
            (fun h => hqp h.symm) hpa hqa _ htail hmem
  · exact p3body_dead_mono _ _ _ _ (p3heads_self_dead hcl)

/-- No other alive player projects the same head cell as `p`. -/
abbrev NoClashAt (st : GameState) (p : String) (plp : Player) : Prop :=
  ∀ qr ∈ st.players, qr.1 ≠ p → qr.2.alive = true →
    projectHead (commitDir qr.2) ≠ projectHead (commitDir plp)

theorem nhs_head_ne_of_noclash {st : GameState} {p : String} {plp : Player}
    (hnc : NoClashAt st p plp) {r : String} (hr : r ≠ p) {nh : Pos}
    (hl : alookup r (newHeads (commitPlayers st.players)) = some nh) :
    nh ≠ projectHead (commitDir plp) := by
  obtain ⟨plr, hmem, hal, rfl⟩ := mem_nhs_elim (alookup_mem hl)
  exact hnc (r, plr) hmem hr hal

theorem nhs_p_head {st : GameState} {p : String} {plp : Player} (hnd : NodupKeys st)
    (hp : alookup p st.players = some plp) {h : Pos}
    (hm : (p, h) ∈ newHeads (commitPlayers st.players)) :
    h = projectHead (commitDir plp) := by
  obtain ⟨plx, hmem, hal, rfl⟩ := mem_nhs_elim hm
  have h2 := alookup_eq_some_of_mem hnd hmem
  rw [hp] at h2
  obtain rfl := Option.some.inj h2
  rfl

theorem split_keys_ne {st : GameState} (hnd : NodupKeys st) {l1 l2 : List (String × Player)}
    {p : String} {plp : Player} (hsplit : st.players = l1 ++ (p, plp) :: l2) :
    ∀ pr ∈ l2, pr.1 ≠ p := by
  have h2 : (st.players.map Prod.fst).Nodup := hnd
  rw [hsplit, List.map_append, List.map_cons] at h2
  have h3 := h2.of_append_right
  rw [List.nodup_cons] at h3
  intro pr hpr he
  exact h3.1 (List.mem_map.mpr ⟨pr, hpr, he⟩)

theorem key_ne_of_mem_commit {l1 : List (String × Player)} {p : String}
    (hl1 : ∀ pr ∈ l1, pr.1 ≠ p) : ∀ a ∈ commitPlayers l1, a.1 ≠ p := by
  intro a ha
  rw [commitPlayers_eq_map] at ha
  obtain ⟨pr, hpr, heq⟩ := List.mem_map.mp ha
  rw [← heq]
  exact hl1 pr hpr

/-- If nobody else projects `p`'s head cell, no iteration of the collision
loop other than `p`'s own can record `p` dead. -/
theorem p3one_p_safe {st : GameState} {p : String} {plp : Player}
    (hnd : NodupKeys st) (hp : alookup p st.players = some plp)
    (hnc : NoClashAt st p plp) {s : P3} {a : String × Player} (hane : a.1 ≠ p)
    (hx : p ∉ s.dead) : p ∉ (p3one (newHeads (commitPlayers st.players)) s a).dead := by
  apply p3one_dead_not_added _ s a hx (fun h => hane h.symm)
  intro hp1 nh hmem hla
  have h1 : hp1 = projectHead (commitDir plp) := nhs_p_head hnd hp hmem
  have h2 : nh ≠ projectHead (commitDir plp) := nhs_head_ne_of_noclash hnc hane hla
  rw [h1]
  exact fun he => h2 he.symm

/-- Characterisation of growth: given no head-to-head partner, `p` is marked
to grow exactly when its projected head is on a pre-tick food cell. -/
theorem grow_iff_food {st : GameState} {p : String} {plp : Player}
    (hnd : NodupKeys st) (hp : alookup p st.players = some plp) (hpa : plp.alive = true)
    (hnc : NoClashAt st p plp) :
    (p ∈ st.phase3.grow ↔ projectHead (commitDir plp) ∈ st.food) := by
  obtain ⟨l1, l2, hsplit, hl1, hph⟩ := phase3_split hp hpa
  have hl1' := key_ne_of_mem_commit hl1
  have hl2' := key_ne_of_mem_commit (split_keys_ne hnd hsplit)
  have hInv : p ∉ ((commitPlayers l1).foldl
        (p3one (newHeads (commitPlayers st.players))) (phase3init st)).grow ∧
      ((projectHead (commitDir plp) ∈ st.food →
        projectHead (commitDir plp) ∈ ((commitPlayers l1).foldl
          (p3one (newHeads (commitPlayers st.players))) (phase3init st)).food) ∧
       (∀ c ∈ ((commitPlayers l1).foldl
          (p3one (newHeads (commitPlayers st.players))) (phase3init st)).food, c ∈ st.food)) := by
    apply foldl_preserve
      (f := p3one (newHeads (commitPlayers st.players)))
      (P := fun s => p ∉ s.grow ∧
        ((projectHead (commitDir plp) ∈ st.food → projectHead (commitDir plp) ∈ s.food) ∧
         (∀ c ∈ s.food, c ∈ st.food)))
    · intro s a ha hs
      refine ⟨p3one_grow_not_added _ s a hs.1 (fun h => (hl1' a ha) h.symm), ?_, ?_⟩
      · intro hf
        exact p3one_food_preserve _ s a (hs.2.1 hf)
          (fun nh hla => nhs_head_ne_of_noclash hnc (hl1' a ha) hla)
      · intro c hc
        exact hs.2.2 c (p3one_food_sub _ s a hc)
    · exact ⟨by simp [phase3init], fun hf => hf, fun c hc => hc⟩
  rw [hph]
  have hgrow_step : p ∈ (p3one (newHeads (commitPlayers st.players))
      ((commitPlayers l1).foldl (p3one (newHeads (commitPlayers st.players)))
        (phase3init st)) (p, commitDir plp)).grow ↔
      projectHead (commitDir plp) ∈ st.food := by
    rw [p3one_eq (by rw [commitDir_alive]; exact hpa) (alookup_nhs hp hpa),
      p3body_grow, p3heads_grow, p3food_grow]
    constructor
    · intro hg
      split at hg
      · rename_i hf
        exact hInv.2.2 _ hf
      · exact absurd hg hInv.1
    · intro hf
      rw [if_pos (hInv.2.1 hf)]
      exact List.mem_append_right _ (List.mem_singleton.mpr rfl)
  constructor
  · intro hg
    rw [← hgrow_step]
    by_contra hng
    exact (foldl_preserve (f := p3one (newHeads (commitPlayers st.players)))
      (P := fun s => p ∉ s.grow)
      (fun s a ha hs => p3one_grow_not_added _ s a hs (fun h => (hl2' a ha) h.symm))
      hng) hg
  · intro hf
    exact foldl_preserve (f := p3one (newHeads (commitPlayers st.players)))
      (P := fun s => p ∈ s.grow)
      (fun s a _ hs => p3one_grow_mono _ s a hs)
      (hgrow_step.mpr hf)

/-- A player with no head-to-head partner whose projected head equals its
own current tail and is not a food cell survives the collision loop: the
their-tail cell is in `excluded_positions` (server.py lines 285-289). -/
theorem tail_vacate_survives {st : GameState} {p : String} {plp : Player}
    (hnd : NodupKeys st) (hp : alookup p st.players = some plp) (hpa : plp.alive = true)
    (hnc : NoClashAt st p plp) (hbody : plp.body ≠ [])
    (htail : projectHead (commitDir plp) = plp.body.getLastD (0, 0))
    (hnf : projectHead (commitDir plp) ∉ st.food) :
    p ∉ st.phase3.dead := by
  obtain ⟨l1, l2, hsplit, hl1, hph⟩ := phase3_split hp hpa
  have hl1' := key_ne_of_mem_commit hl1
  have hl2' := key_ne_of_mem_commit (split_keys_ne hnd hsplit)
  have hInv : p ∉ ((commitPlayers l1).foldl
        (p3one (newHeads (commitPlayers st.players))) (phase3init st)).dead ∧
      p ∉ ((commitPlayers l1).foldl
        (p3one (newHeads (commitPlayers st.players))) (phase3init st)).grow ∧
      (∀ c ∈ ((commitPlayers l1).foldl
        (p3one (newHeads (commitPlayers st.players))) (phase3init st)).food, c ∈ st.food) := by
    apply foldl_preserve
      (f := p3one (newHeads (commitPlayers st.players)))
      (P := fun s => p ∉ s.dead ∧ p ∉ s.grow ∧ (∀ c ∈ s.food, c ∈ st.food))
    · intro s a ha hs
      exact ⟨p3one_p_safe hnd hp hnc (hl1' a ha) hs.1,
        p3one_grow_not_added _ s a hs.2.1 (fun h => (hl1' a ha) h.symm),
        fun c hc => hs.2.2 c (p3one_food_sub _ s a hc)⟩
    · exact ⟨by simp [phase3init], by simp [phase3init], fun c hc => hc⟩
  have hclash : hhClash (newHeads (commitPlayers st.players)) p
      (projectHead (commitDir plp)) = [] := by
    rw [List.eq_nil_iff_forall_not_mem]
    intro x hx
    obtain ⟨hmem, hne⟩ := mem_hhClash.mp hx
    obtain ⟨plx, hpx, hal, hhd⟩ := mem_nhs_elim hmem
    exact hnc (x, plx) hpx hne hal hhd.symm
  have hstep : p ∉ (p3one (newHeads (commitPlayers st.players))
      ((commitPlayers l1).foldl (p3one (newHeads (commitPlayers st.players)))
        (phase3init st)) (p, commitDir plp)).dead := by
    rw [p3one_eq (by rw [commitDir_alive]; exact hpa) (alookup_nhs hp hpa)]
    have hfskip : p3food ((commitPlayers l1).foldl
        (p3one (newHeads (commitPlayers st.players))) (phase3init st)) p
        (projectHead (commitDir plp)) =
        (commitPlayers l1).foldl (p3one (newHeads (commitPlayers st.players)))
          (phase3init st) := by
      unfold p3food
      rw [if_neg (fun hf => hnf (hInv.2.2 _ hf))]
    rw [hfskip]
    have hhskip : p3heads (newHeads (commitPlayers st.players))
        ((commitPlayers l1).foldl (p3one (newHeads (commitPlayers st.players)))
          (phase3init st)) p (projectHead (commitDir plp)) =
        (commitPlayers l1).foldl (p3one (newHeads (commitPlayers st.players)))
          (phase3init st) := by
      unfold p3heads
      rw [if_pos hclash]
    rw [hhskip]
    unfold p3body
    rw [if_neg hInv.1]
    rw [if_neg ?hcond]
    case hcond =>
      rintro ⟨-, hninexc⟩
      apply hninexc
      unfold p3excluded
      rw [if_neg hInv.2.1, commitDir_body, if_neg hbody]
      exact Finset.mem_singleton.mpr htail
    exact hInv.1
  rw [hph]
  exact foldl_preserve (f := p3one (newHeads (commitPlayers st.players)))
    (P := fun s => p ∉ s.dead)
    (fun s a ha hs => p3one_p_safe hnd hp hnc (hl2' a ha) hs)
    hstep

/-- A player with no head-to-head partner whose projected head is a food
cell survives the collision loop and is marked for growth: eating removes
the cell from the transient occupancy set (server.py lines 263-270). -/
theorem food_eater_survives {st : GameState} {p : String} {plp : Player}
    (hnd : NodupKeys st) (hp : alookup p st.players = some plp) (hpa : plp.alive = true)
    (hnc : NoClashAt st p plp)
    (hf : projectHead (commitDir plp) ∈ st.food) :
    p ∉ st.phase3.dead ∧ p ∈ st.phase3.grow := by
  obtain ⟨l1, l2, hsplit, hl1, hph⟩ := phase3_split hp hpa
  have hl1' := key_ne_of_mem_commit hl1
  have hl2' := key_ne_of_mem_commit (split_keys_ne hnd hsplit)
  have hInv : p ∉ ((commitPlayers l1).foldl
        (p3one (newHeads (commitPlayers st.players))) (phase3init st)).dead ∧
      projectHead (commitDir plp) ∈ ((commitPlayers l1).foldl
        (p3one (newHeads (commitPlayers st.players))) (phase3init st)).food := by
    apply foldl_preserve
      (f := p3one (newHeads (commitPlayers st.players)))
      (P := fun s => p ∉ s.dead ∧ projectHead (commitDir plp) ∈ s.food)
    · intro s a ha hs
      exact ⟨p3one_p_safe hnd hp hnc (hl1' a ha) hs.1,
        p3one_food_preserve _ s a hs.2
          (fun nh hla => nhs_head_ne_of_noclash hnc (hl1' a ha) hla)⟩
    · exact ⟨by simp [phase3init], hf⟩
  have hclash : hhClash (newHeads (commitPlayers st.players)) p
      (projectHead (commitDir plp)) = [] := by
    rw [List.eq_nil_iff_forall_not_mem]
    intro x hx
    obtain ⟨hmem, hne⟩ := mem_hhClash.mp hx
    obtain ⟨plx, hpx, hal, hhd⟩ := mem_nhs_elim hmem
    exact hnc (x, plx) hpx hne hal hhd.symm
  have hstep : p ∉ (p3one (newHeads (commitPlayers st.players))
      ((commitPlayers l1).foldl (p3one (newHeads (commitPlayers st.players)))
        (phase3init st)) (p, commitDir plp)).dead ∧
      p ∈ (p3one (newHeads (commitPlayers st.players))
      ((commitPlayers l1).foldl (p3one (newHeads (commitPlayers st.players)))
        (phase3init st)) (p, commitDir plp)).grow := by
    rw [p3one_eq (by rw [commitDir_alive]; exact hpa) (alookup_nhs hp hpa)]
    have heat : p3food ((commitPlayers l1).foldl
        (p3one (newHeads (commitPlayers st.players))) (phase3init st)) p
        (projectHead (commitDir plp)) =
        { (commitPlayers l1).foldl (p3one (newHeads (commitPlayers st.players)))
            (phase3init st) with
          grow := ((commitPlayers l1).foldl (p3one (newHeads (commitPlayers st.players)))
            (phase3init st)).grow ++ [p]
          food := ((commitPlayers l1).foldl (p3one (newHeads (commitPlayers st.players)))
            (phase3init st)).food.erase (projectHead (commitDir plp))
          players := amodify p (fun q => { q with food_collected := q.food_collected + 1 })
            ((commitPlayers l1).foldl (p3one (newHeads (commitPlayers st.players)))
              (phase3init st)).players
          temp := ((commitPlayers l1).foldl (p3one (newHeads (commitPlayers st.players)))
            (phase3init st)).temp.erase (projectHead (commitDir plp)) } := by
      unfold p3food
      rw [if_pos hInv.2]
    rw [heat]
    rw [p3heads_skip hclash]
    constructor
    · unfold p3body
      rw [if_neg (by exact hInv.1)]
      rw [if_neg ?hcond2]
      case hcond2 =>
        rintro ⟨hin, -⟩
        exact Finset.not_mem_erase _ _ hin
      exact hInv.1
    · rw [p3body_grow]
      exact List.mem_append_right _ (List.mem_singleton.mpr rfl)
  rw [hph]
  have := foldl_preserve (f := p3one (newHeads (commitPlayers st.players)))
    (P := fun s => p ∉ s.dead ∧ p ∈ s.grow)
    (fun s a ha hs => ⟨p3one_p_safe hnd hp hnc (hl2' a ha) hs.1,
      p3one_grow_mono _ s a hs.2⟩)
    hstep
  exact this

/-! ### Step assembly lemmas -/

theorem step_players (st : GameState) (rng : List RandStep) :
    (st.step rng).players = st.phase3.players.map
      (fun pr => (pr.1, movePl (newHeads (commitPlayers st.players)) st.phase3.grow
        st.phase3.dead pr.1 pr.2)) := rfl

theorem step_reasons (st : GameState) (rng : List RandStep) :
    (st.step rng).death_reasons = st.phase3.reasons := rfl

theorem alookup_step_players (st : GameState) (rng : List RandStep) (k : String) :
    alookup k (st.step rng).players = (alookup k st.phase3.players).map
      (movePl (newHeads (commitPlayers st.players)) st.phase3.grow st.phase3.dead k) := by
  rw [step_players]
  exact alookup_map_val k _ _

theorem clearFC_body {a b : Player} (h : clearFC a = clearFC b) : a.body = b.body := by
  have h2 := congrArg Player.body h
  exact h2

theorem clearFC_alive {a b : Player} (h : clearFC a = clearFC b) : a.alive = b.alive := by
  have h2 := congrArg Player.alive h
  exact h2

theorem clearFC_score {a b : Player} (h : clearFC a = clearFC b) : a.score = b.score := by
  have h2 := congrArg Player.score h
  exact h2

/-- The collision loop changes a player's record only in `food_collected`. -/
theorem phase3_entry {st : GameState} {k : String} {plk : Player}
    (hk : alookup k st.players = some plk) :
    ∃ pl3, alookup k st.phase3.players = some pl3 ∧
      clearFC pl3 = clearFC (if plk.alive then commitDir plk else plk) := by
  have h := phase3_players_view st k
  rw [alookup_commitPlayers, hk] at h
  cases hl : alookup k st.phase3.players with
  | none => rw [hl] at h; simp at h
  | some pl3 =>
      rw [hl] at h
      refine ⟨pl3, rfl, ?_⟩
      simpa using h

theorem phase3_entry_alive {st : GameState} {k : String} {plk : Player}
    (hk : alookup k st.players = some plk) (hka : plk.alive = true) :
    ∃ pl3, alookup k st.phase3.players = some pl3 ∧
      pl3.body = plk.body ∧ pl3.alive = true ∧ pl3.score = plk.score := by
  obtain ⟨pl3, hl, hv⟩ := phase3_entry hk
  rw [if_pos hka] at hv
  refine ⟨pl3, hl, ?_, ?_, ?_⟩
  · rw [clearFC_body hv, commitDir_body]
  · rw [clearFC_alive hv, commitDir_alive]; exact hka
  · rw [clearFC_score hv, commitDir_score]

theorem movePl_not_alive {nhs : List (String × Pos)} {grow : List String}
    {dead : Finset String} {pid : String} {pl : Player} (h : pl.alive = false) :
    movePl nhs grow dead pid pl = pl := by
  simp [movePl, h]

theorem movePl_dead {nhs : List (String × Pos)} {grow : List String}
    {dead : Finset String} {pid : String} {pl : Player} (ha : pl.alive = true)
    (hd : pid ∈ dead) : movePl nhs grow dead pid pl = { pl with alive := false } := by
  simp [movePl, ha, hd]

theorem movePl_surv_grow {nhs : List (String × Pos)} {grow : List String}
    {dead : Finset String} {pid : String} {pl : Player} {nh : Pos} (ha : pl.alive = true)
    (hd : pid ∉ dead) (hl : alookup pid nhs = some nh) (hg : pid ∈ grow) :
    movePl nhs grow dead pid pl = { pl with body := nh :: pl.body, score := pl.score + 1 } := by
  simp [movePl, ha, hd, hl, hg]

theorem movePl_surv_nogrow {nhs : List (String × Pos)} {grow : List String}
    {dead : Finset String} {pid : String} {pl : Player} {nh : Pos} (ha : pl.alive = true)
    (hd : pid ∉ dead) (hl : alookup pid nhs = some nh) (hg : pid ∉ grow) :
    movePl nhs grow dead pid pl =
      { pl with body := if START_LENGTH < (nh :: pl.body).length
          then (nh :: pl.body).dropLast else nh :: pl.body } := by
  simp [movePl, ha, hd, hl, hg]

/-! ### Claim C7: direction commit and toroidal head projection -/

/-- C7: for every alive player the tick commits the pending direction as the
current direction unless it is the exact opposite of the current direction,
and projects the new head as `wrap(head + direction)`, i.e.
`((hx + dx) mod WIDTH, (hy + dy) mod HEIGHT)`; in particular a head at
`x = WIDTH - 1` with committed direction `(1, 0)` projects to `x = 0` with
the same `y`. -/
theorem C7_direction_commit_and_wrap (st : GameState) (p : String) (plp : Player)
    (hp : alookup p st.players = some plp) (hpa : plp.alive = true) :
    alookup p (newHeads (commitPlayers st.players)) =
      some (clamp_pos
        (plp.body.headI.1 +
          (if plp.pending_dir = (-plp.dir.1, -plp.dir.2) then plp.dir else plp.pending_dir).1)
        (plp.body.headI.2 +
          (if plp.pending_dir = (-plp.dir.1, -plp.dir.2) then plp.dir else plp.pending_dir).2)) ∧
    (∀ y : Int, 0 ≤ y → y < HEIGHT → plp.body.headI = (WIDTH - 1, y) →
      (if plp.pending_dir = (-plp.dir.1, -plp.dir.2) then plp.dir else plp.pending_dir) = (1, 0) →
      alookup p (newHeads (commitPlayers st.players)) = some ((0 : Int), y)) := by
  have hmain : alookup p (newHeads (commitPlayers st.players)) =
      some (clamp_pos
        (plp.body.headI.1 +
          (if plp.pending_dir = (-plp.dir.1, -plp.dir.2) then plp.dir else plp.pending_dir).1)
        (plp.body.headI.2 +
          (if plp.pending_dir = (-plp.dir.1, -plp.dir.2) then plp.dir else plp.pending_dir).2)) := by
    rw [alookup_nhs hp hpa]
    unfold projectHead
    rw [commitDir_body, commitDir_dir]
  refine ⟨hmain, ?_⟩
  intro y hy0 hyh hhead hdir
  rw [hmain, hhead, hdir]
  have h1 : ((WIDTH - 1 : Int), y).1 + ((1 : Int), (0 : Int)).1 = 40 := by
    show (WIDTH - 1) + 1 = 40
    unfold WIDTH
    ring
  have h2 : ((WIDTH - 1 : Int), y).2 + ((1 : Int), (0 : Int)).2 = y := by
    show y + 0 = y
    ring
  rw [h1, h2]
  unfold clamp_pos WIDTH HEIGHT
  have h3 : (40 : Int) % 40 = 0 := by decide
  have h4 : y % (30 : Int) = y := Int.emod_eq_of_lt hy0 (by exact_mod_cast hyh)
  rw [h3, h4]

def stW7 : GameState :=
  { players := [("a", mkPlayer "a" [(39, 5), (38, 5), (37, 5)] 0 0 0)]
    food := []
    occupied := {(39, 5), (38, 5), (37, 5)}
    tick := 0
    death_reasons := [] }

theorem C7_witness :
    alookup "a" (newHeads (commitPlayers stW7.players)) = some ((0 : Int), (5 : Int)) := by
  have h := C7_direction_commit_and_wrap stW7 "a" (mkPlayer "a" [(39, 5), (38, 5), (37, 5)] 0 0 0)
    (by rfl) (by rfl)
  exact h.2 5 (by decide) (by decide) (by decide) (by decide)

/-! ### Claim C8: input message validation -/

/-- Whether an `input` message is accepted (server.py lines 528-532): the
sender maps to an existing alive player and `dir` is a 2-element array of
integers in `{-1, 0, 1}`, not both zero. -/
def inputOkB (st : GameState) (pid : String) (dir : List Int) : Bool :=
  (dir.length == 2) &&
    (match alookup pid st.players with
     | some pl => pl.alive
     | none => false) &&
    ((dir.getD 0 0 == -1 || dir.getD 0 0 == 0 || dir.getD 0 0 == 1) &&
     (dir.getD 1 0 == -1 || dir.getD 1 0 == 0 || dir.getD 1 0 == 1) &&
     (dir.getD 0 0 != 0 || dir.getD 1 0 != 0))

theorem inputOkB_iff (st : GameState) (pid : String) (dir : List Int) :
    inputOkB st pid dir = true ↔
      dir.length = 2 ∧ (∃ pl, alookup pid st.players = some pl ∧ pl.alive = true) ∧
      (dir.getD 0 0 = -1 ∨ dir.getD 0 0 = 0 ∨ dir.getD 0 0 = 1) ∧
      (dir.getD 1 0 = -1 ∨ dir.getD 1 0 = 0 ∨ dir.getD 1 0 = 1) ∧
      (dir.getD 0 0 ≠ 0 ∨ dir.getD 1 0 ≠ 0) := by
  unfold inputOkB
  cases hpl : alookup pid st.players with
  | none => simp
  | some pl =>
      simp only [hpl]
      simp
      tauto

/-- C8: an inbound `input` message sets the sender's pending direction (and
input timestamp) if and only if the sender maps to an existing, currently
alive player and the direction is a 2-element array of integers in
`{-1, 0, 1}` that are not both zero; any other input message leaves the
entire game state unchanged. -/
theorem C8_input_validation (st : GameState) (pid : String) (dir : List Int) (now : Nat) :
    handle_input st pid dir now =
      if inputOkB st pid dir then
        { st with
          players := amodify pid
            (fun q =>
              { q with pending_dir := (dir.getD 0 0, dir.getD 1 0), last_input_time := now })
            st.players }
      else st := by
  by_cases hok : inputOkB st pid dir = true
  · rw [if_pos hok]
    obtain ⟨h1, ⟨pl, hpl, hal⟩, h3, h4, h5⟩ := (inputOkB_iff st pid dir).mp hok
    unfold handle_input
    rw [if_pos h1]
    simp only [hpl]
    rw [if_pos hal, if_pos ⟨h3, h4, h5⟩]
  · rw [if_neg hok]
    unfold handle_input
    by_cases h1 : dir.length = 2
    · rw [if_pos h1]
      cases hpl : alookup pid st.players with
      | none => simp only [hpl]
      | some pl =>
          simp only [hpl]
          by_cases hal : pl.alive = true
          · rw [if_pos hal, if_neg]
            intro hc
            exact hok ((inputOkB_iff st pid dir).mpr ⟨h1, ⟨pl, hpl, hal⟩, hc.1, hc.2.1, hc.2.2⟩)
          · rw [if_neg hal]
    · rw [if_neg h1]

/-! ### Claim C10: rename idempotence -/

theorem amodify_idem {β : Type} (k : String) (f : β → β) (hf : ∀ x, f (f x) = f x)
    (l : List (String × β)) : amodify k f (amodify k f l) = amodify k f l := by
  induction l with
  | nil => rfl
  | cons p rest ih =>
      by_cases hp : p.1 = k
      · simp [amodify, hp, hf]
      · simp [amodify, hp, ih]

/-- C10: for every existing player and every name with non-empty stripped
form, `rename` replaces the display name by the stripped name truncated to
20 characters and changes nothing else in the game state, and applying it
twice with the same name yields the same state as applying it once. -/
theorem C10_rename_idempotent (st : GameState) (pid name : String) (pl : Player)
    (hpl : alookup pid st.players = some pl) (hname : pyStrip name ≠ "") :
    handle_rename (handle_rename st pid name) pid name = handle_rename st pid name ∧
    (alookup pid (handle_rename st pid name).players).map Player.display_name =
      some (pyTake (pyStrip name) 20) ∧
    (handle_rename st pid name).players =
      amodify pid (fun q => { q with display_name := pyTake (pyStrip name) 20 }) st.players ∧
    (handle_rename st pid name).food = st.food ∧
    (handle_rename st pid name).occupied = st.occupied ∧
    (handle_rename st pid name).tick = st.tick ∧
    (handle_rename st pid name).death_reasons = st.death_reasons := by
  have hne : name ≠ "" := by
    intro h
    apply hname
    rw [h]
    rfl
  have hcond : (alookup pid st.players) ≠ none ∧ name ≠ "" ∧ pyStrip name ≠ "" :=
    ⟨by rw [hpl]; simp, hne, hname⟩
  have h1 : handle_rename st pid name =
      { st with
        players := amodify pid
          (fun q => { q with display_name := pyTake (pyStrip name) 20 }) st.players } := by
    unfold handle_rename
    rw [if_pos hcond]
  refine ⟨?_, ?_, ?_, ?_, ?_, ?_, ?_⟩
  · rw [h1]
    unfold handle_rename
    rw [if_pos ?c2]
    case c2 =>
      refine ⟨?_, hne, hname⟩
      show alookup pid (amodify pid
        (fun q => { q with display_name := pyTake (pyStrip name) 20 }) st.players) ≠ none
      rw [alookup_amodify_self, hpl]
      simp
    show ({ st with
      players := amodify pid
        (fun q => { q with display_name := pyTake (pyStrip name) 20 })
        (amodify pid
          (fun q => { q with display_name := pyTake (pyStrip name) 20 }) st.players) } :
        GameState) = _
    rw [amodify_idem pid (fun q => { q with display_name := pyTake (pyStrip name) 20 })
      (fun x => rfl) st.players]
  · rw [h1]
    show (alookup pid (amodify pid
      (fun q => { q with display_name := pyTake (pyStrip name) 20 }) st.players)).map
      Player.display_name = _
    rw [alookup_amodify_self, hpl]
    rfl
  · rw [h1]
  · rw [h1]
  · rw [h1]
  · rw [h1]
  · rw [h1]

def stW10 : GameState :=
  { players := [("a", mkPlayer "a" [(5, 5), (4, 5), (3, 5)] 0 0 0)]
    food := []
    occupied := ∅
    tick := 0
    death_reasons := [] }

theorem C10_witness :
    handle_rename (handle_rename stW10 "a" "  Bob  ") "a" "  Bob  " =
      handle_rename stW10 "a" "  Bob  " ∧
    (alookup "a" (handle_rename stW10 "a" "  Bob  ").players).map Player.display_name =
      some "Bob" := by
  have h := C10_rename_idempotent stW10 "a" "  Bob  "
    (mkPlayer "a" [(5, 5), (4, 5), (3, 5)] 0 0 0) (by rfl) (by decide)
  refine ⟨h.1, ?_⟩
  rw [h.2.1]
  rfl

/-! ### Claim C3: food replenishment on a fully occupied grid -/

/-- Every grid cell, as a finite set. -/
def fullOcc : Finset Pos := allCells.toFinset

theorem find_empty_position_full {r : RandStep}
    (hpr : ∀ c ∈ r.probes, c ∈ allCells) (hla : r.last ∈ allCells) :
    find_empty_position r fullOcc = r.last ∧ find_empty_position r fullOcc ∈ fullOcc := by
  unfold find_empty_position
  have h1 : r.probes.find? (fun p => decide (p ∉ fullOcc)) = none := by
    rw [List.find?_eq_none]
    intro x hx
    simp only [decide_eq_true_eq, Decidable.not_not]
    exact List.mem_toFinset.mpr (hpr x hx)
  have h2 : allCells.find? (fun p => decide (p ∉ fullOcc)) = none := by
    rw [List.find?_eq_none]
    intro x hx
    simp only [decide_eq_true_eq, Decidable.not_not]
    exact List.mem_toFinset.mpr hx
  rw [h1, h2]
  exact ⟨rfl, List.mem_toFinset.mpr hla⟩

theorem spawn_food_aux_full (rng : List RandStep)
    (hv : ∀ r ∈ rng, (∀ c ∈ r.probes, c ∈ allCells) ∧ r.last ∈ allCells) :
    ∀ food : List Pos, spawn_food_aux rng (food, fullOcc) = (food, fullOcc) := by
  induction rng with
  | nil => intro food; rfl
  | cons r rs ih =>
      intro food
      have hr := hv r (List.mem_cons_self _ _)
      have hrs : ∀ x ∈ rs, (∀ c ∈ x.probes, c ∈ allCells) ∧ x.last ∈ allCells :=
        fun x hx => hv x (List.mem_cons_of_mem _ hx)
      by_cases hlen : food.length < FOOD_COUNT
      · show (if food.length < FOOD_COUNT then
            if find_empty_position r fullOcc ∈ fullOcc then spawn_food_aux rs (food, fullOcc)
            else spawn_food_aux rs
              (food ++ [find_empty_position r fullOcc],
               insert (find_empty_position r fullOcc) fullOcc)
          else (food, fullOcc)) = (food, fullOcc)
        rw [if_pos hlen, if_pos (find_empty_position_full hr.1 hr.2).2]
        exact ih hrs food
      · show (if food.length < FOOD_COUNT then
            if find_empty_position r fullOcc ∈ fullOcc then spawn_food_aux rs (food, fullOcc)
            else spawn_food_aux rs
              (food ++ [find_empty_position r fullOcc],
               insert (find_empty_position r fullOcc) fullOcc)
          else (food, fullOcc)) = (food, fullOcc)
        rw [if_neg hlen]

/-- C3 (code bug): on a game state whose occupancy covers the whole grid
while holding fewer than `FOOD_COUNT` food items, the replenishment loop of
`spawn_food` (server.py lines 104-114) makes no progress under any finite
stream of random draws: `find_empty_position`'s "last resort" return value
is always occupied, the guard `len(food) < FOOD_COUNT` stays true, and the
`while` loop never terminates — the tick never completes, contradicting the
claim that replenishment terminates on every state. -/
theorem C3_spawn_food_full_grid_stuck (st : GameState) (rng : List RandStep)
    (ho : st.occupied = fullOcc) (hf : st.food = [])
    (hv : ∀ r ∈ rng, (∀ c ∈ r.probes, c ∈ allCells) ∧ r.last ∈ allCells) :
    st.spawn_food rng = st ∧ (st.spawn_food rng).food.length < FOOD_COUNT := by
  have haux : spawn_food_aux rng (st.food, st.occupied) = (st.food, st.occupied) := by
    rw [ho, hf]
    exact spawn_food_aux_full rng hv []
  have h1 : st.spawn_food rng = st := by
    unfold GameState.spawn_food
    rw [haux]
  refine ⟨h1, ?_⟩
  rw [h1, hf]
  decide

def stFull : GameState :=
  { players := []
    food := []
    occupied := fullOcc
    tick := 0
    death_reasons := [] }

theorem C3_witness :
    stFull.spawn_food [⟨[(0, 0)], (0, 0)⟩] = stFull ∧
    (stFull.spawn_food [⟨[(0, 0)], (0, 0)⟩]).food.length < FOOD_COUNT := by
  apply C3_spawn_food_full_grid_stuck stFull [⟨[(0, 0)], (0, 0)⟩] rfl rfl
  intro r hr
  rw [List.mem_singleton] at hr
  subst hr
  refine ⟨?_, by decide⟩
  intro c hc
  rw [List.mem_singleton] at hc
  subst hc
  decide

/-! ### Claim C9: respawn semantics -/

theorem remove_player_tick (st : GameState) (pid : String) :
    (st.remove_player pid).tick = st.tick := by
  unfold GameState.remove_player
  split <;> rfl

theorem add_player_lookup (st : GameState) (rng : SpawnRng) (pid dname : String) (now : Nat) :
    ∃ a, alookup pid (st.add_player rng pid dname now).players =
      some (mkPlayer dname (spawnBody a) rng.hue now st.tick) := by
  unfold GameState.add_player
  split
  · exact ⟨_, alookup_aset_self _ _ _⟩
  · exact ⟨rng.fallback, alookup_aset_self _ _ _⟩

theorem spawnBody_length (a : Int × Int) : (spawnBody a).length = START_LENGTH := rfl

/-- C9 (amended): a `respawn` message takes effect exactly when the sender
maps to a currently dead player, in which case the player is removed and
re-added under the same identity with score 0, a fresh start body, spawn
tick equal to the current tick, rightward initial direction — and with the
display name reset to the connection's initial display name, which is the
player id (server.py line 483), not the current display name if renamed.  A
`respawn` for an alive identity leaves the state unchanged. -/
theorem C9_respawn (st : GameState) (rng : SpawnRng) (pid : String) (now : Nat)
    (pl : Player) (hpl : alookup pid st.players = some pl) :
    (pl.alive = true → handle_respawn st rng pid now = st) ∧
    (pl.alive = false →
      ∃ pl2, alookup pid (handle_respawn st rng pid now).players = some pl2 ∧
        pl2.display_name = pid ∧ pl2.score = 0 ∧ pl2.food_collected = 0 ∧
        pl2.alive = true ∧ pl2.spawn_tick = st.tick ∧ pl2.dir = (1, 0) ∧
        pl2.pending_dir = (1, 0) ∧ pl2.body.length = START_LENGTH) := by
  constructor
  · intro hal
    unfold handle_respawn
    rw [hpl]
    show (if pl.alive = true then st else _) = st
    rw [if_pos hal]
  · intro hal
    have hstep : handle_respawn st rng pid now =
        (st.remove_player pid).add_player rng pid pid now := by
      unfold handle_respawn
      rw [hpl]
      show (if pl.alive = true then st else _) = _
      rw [if_neg (by rw [hal]; exact Bool.false_ne_true)]
    rw [hstep]
    obtain ⟨a, ha⟩ := add_player_lookup (st.remove_player pid) rng pid pid now
    rw [remove_player_tick] at ha
    exact ⟨_, ha, rfl, rfl, rfl, rfl, rfl, rfl, rfl, spawnBody_length a⟩

def stC9 : GameState :=
  { players := [("a",
      { display_name := "Alice", body := [(0, 0)], dir := (1, 0), pending_dir := (1, 0),
        alive := false, score := 3, food_collected := 3, color := "c",
        last_input_time := 0, spawn_tick := 0 })]
    food := []
    occupied := ∅
    tick := 11
    death_reasons := [("a", "self")] }

def srngC9 : SpawnRng := ⟨[(10, 10)], (0, 0), 42⟩

/-- C9 counterexample: a dead player renamed to "Alice" respawns with
display name "a" (its player id), not its previous display name — refuting
"re-added under the same identity and display name" as stated. -/
theorem C9_counterexample :
    (alookup "a" stC9.players).map Player.display_name = some "Alice" ∧
    (alookup "a" stC9.players).map Player.alive = some false ∧
    (alookup "a" (handle_respawn stC9 srngC9 "a" 5).players).map Player.display_name =
      some "a" ∧
    ("a" : String) ≠ "Alice" := by
  refine ⟨rfl, rfl, ?_, by decide⟩
  decide

theorem C9_witness :
    ∃ pl2, alookup "a" (handle_respawn stC9 srngC9 "a" 5).players = some pl2 ∧
      pl2.display_name = "a" ∧ pl2.score = 0 ∧ pl2.food_collected = 0 ∧
      pl2.alive = true ∧ pl2.spawn_tick = stC9.tick ∧ pl2.dir = (1, 0) ∧
      pl2.pending_dir = (1, 0) ∧ pl2.body.length = START_LENGTH := by
  have h := C9_respawn stC9 srngC9 "a" 5
    { display_name := "Alice", body := [(0, 0)], dir := (1, 0), pending_dir := (1, 0),
      alive := false, score := 3, food_collected := 3, color := "c",
      last_input_time := 0, spawn_tick := 0 } (by rfl)
  exact h.2 rfl

/-! ### Claim C2: symmetric head-to-head death -/

/-- C2: if two distinct alive players project the identical new head cell in
a tick, then after the tick both are not alive, both have death cause
`"head_collision"`, and neither body has moved.  The player list (the dict
iteration order) is arbitrary, so the outcome is independent of the order in
which players are iterated. -/
theorem C2_head_to_head (st : GameState) (rng : List RandStep) (p q : String)
    (plp plq : Player)
    (hp : alookup p st.players = some plp) (hq : alookup q st.players = some plq)
    (hne : p ≠ q) (hpa : plp.alive = true) (hqa : plq.alive = true)
    (hh : projectHead (commitDir plp) = projectHead (commitDir plq)) :
    (∃ plp2, alookup p (st.step rng).players = some plp2 ∧ plp2.alive = false ∧
      plp2.body = plp.body) ∧
    alookup p (st.step rng).death_reasons = some "head_collision" ∧
    (∃ plq2, alookup q (st.step rng).players = some plq2 ∧ plq2.alive = false ∧
      plq2.body = plq.body) ∧
    alookup q (st.step rng).death_reasons = some "head_collision" := by
  have hcd := clash_dead hp (alookup_mem hq) (fun h => hne h.symm) hpa hqa hh.symm
  obtain ⟨pl3p, hl3p, hbp, hap, _⟩ := phase3_entry_alive hp hpa
  obtain ⟨pl3q, hl3q, hbq, haq, _⟩ := phase3_entry_alive hq hqa
  refine ⟨⟨{ pl3p with alive := false }, ?_, rfl, hbp⟩, ?_,
    ⟨{ pl3q with alive := false }, ?_, rfl, hbq⟩, ?_⟩
  · rw [alookup_step_players, hl3p]
    show some (movePl _ _ _ p pl3p) = _
    rw [movePl_dead hap hcd.1.1]
  · rw [step_reasons]
    exact hcd.1.2
  · rw [alookup_step_players, hl3q]
    show some (movePl _ _ _ q pl3q) = _
    rw [movePl_dead haq hcd.2.1]
  · rw [step_reasons]
    exact hcd.2.2

/-- A live test player record with the given body and directions. -/
def testPlayer (body : List Pos) (d pd : Int × Int) : Player :=
  { display_name := "t", body := body, dir := d, pending_dir := pd, alive := true,
    score := 0, food_collected := 0, color := "c", last_input_time := 0, spawn_tick := 0 }

def stW2 : GameState :=
  { players := [("a", testPlayer [(0, 0), (39, 0), (38, 0)] (1, 0) (1, 0)),
                ("b", testPlayer [(2, 0), (3, 0), (4, 0)] (-1, 0) (-1, 0))]
    food := []
    occupied := {(0, 0), (39, 0), (38, 0), (2, 0), (3, 0), (4, 0)}
    tick := 0
    death_reasons := [] }

theorem C2_witness :
    (∃ plp2, alookup "a" (stW2.step []).players = some plp2 ∧ plp2.alive = false ∧
      plp2.body = (testPlayer [(0, 0), (39, 0), (38, 0)] (1, 0) (1, 0)).body) ∧
    alookup "a" (stW2.step []).death_reasons = some "head_collision" ∧
    (∃ plq2, alookup "b" (stW2.step []).players = some plq2 ∧ plq2.alive = false ∧
      plq2.body = (testPlayer [(2, 0), (3, 0), (4, 0)] (-1, 0) (-1, 0)).body) ∧
    alookup "b" (stW2.step []).death_reasons = some "head_collision" :=
  C2_head_to_head stW2 [] "a" "b"
    (testPlayer [(0, 0), (39, 0), (38, 0)] (1, 0) (1, 0))
    (testPlayer [(2, 0), (3, 0), (4, 0)] (-1, 0) (-1, 0))
    (by rfl) (by rfl) (by decide) (by rfl) (by rfl) (by decide)

/-! ### Claim C6: score accounting -/

/-- C6 (amended): across one tick every player's score is non-decreasing; a
player that survives the tick gains exactly 1 point when its projected head
was on a pre-tick food cell and 0 otherwise; a player that dies in the tick
(or was already dead) keeps its score unchanged — in particular a player
whose projected head lands on food but who dies the same tick does not
score, even though the food item is consumed and `food_collected` is
incremented. -/
theorem C6_score (st : GameState) (rng : List RandStep) (p : String) (plp : Player)
    (hnd : NodupKeys st) (hp : alookup p st.players = some plp) :
    ∃ pl2, alookup p (st.step rng).players = some pl2 ∧
      plp.score ≤ pl2.score ∧
      (plp.alive = false → pl2.score = plp.score) ∧
      (plp.alive = true → pl2.alive = false → pl2.score = plp.score) ∧
      (plp.alive = true → pl2.alive = true →
        pl2.score = plp.score + (if projectHead (commitDir plp) ∈ st.food then 1 else 0)) := by
  by_cases hpa : plp.alive = true
  · obtain ⟨pl3, hl3, hb3, ha3, hs3⟩ := phase3_entry_alive hp hpa
    refine ⟨movePl (newHeads (commitPlayers st.players)) st.phase3.grow st.phase3.dead p pl3,
      ?_, ?_, ?_, ?_, ?_⟩
    · rw [alookup_step_players, hl3]
      rfl
    · by_cases hdead : p ∈ st.phase3.dead
      · rw [movePl_dead ha3 hdead]
        show plp.score ≤ pl3.score
        rw [hs3]
      · have hnhs := alookup_nhs hp hpa
        by_cases hg : p ∈ st.phase3.grow
        · rw [movePl_surv_grow ha3 hdead hnhs hg]
          show plp.score ≤ pl3.score + 1
          rw [hs3]
          exact Nat.le_succ _
        · rw [movePl_surv_nogrow ha3 hdead hnhs hg]
          show plp.score ≤ pl3.score
          rw [hs3]
    · intro h
      rw [h] at hpa
      exact absurd hpa (by decide)
    · intro _ habs
      by_cases hdead : p ∈ st.phase3.dead
      · rw [movePl_dead ha3 hdead]
        exact hs3
      · exfalso
        have hnhs := alookup_nhs hp hpa
        by_cases hg : p ∈ st.phase3.grow
        · rw [movePl_surv_grow ha3 hdead hnhs hg] at habs
          have habs2 : pl3.alive = false := habs
          rw [ha3] at habs2
          exact absurd habs2 (by decide)
        · rw [movePl_surv_nogrow ha3 hdead hnhs hg] at habs
          have habs2 : pl3.alive = false := habs
          rw [ha3] at habs2
          exact absurd habs2 (by decide)
    · intro _ halive
      by_cases hdead : p ∈ st.phase3.dead
      · exfalso
        rw [movePl_dead ha3 hdead] at halive
        have habs2 : (false : Bool) = true := halive
        exact absurd habs2 (by decide)
      · have hnc : NoClashAt st p plp := fun qr hqr hne hal =>
          no_clash_of_surv hp hqr hne hpa hal hdead
        have hgrow := grow_iff_food hnd hp hpa hnc
        have hnhs := alookup_nhs hp hpa
        by_cases hg : p ∈ st.phase3.grow
        · rw [movePl_surv_grow ha3 hdead hnhs hg]
          show pl3.score + 1 = plp.score + _
          rw [if_pos (hgrow.mp hg), hs3]
        · rw [movePl_surv_nogrow ha3 hdead hnhs hg]
          show pl3.score = plp.score + _
          rw [if_neg (fun hf => hg (hgrow.mpr hf)), hs3, Nat.add_zero]
  · have hpa' : plp.alive = false := by
      revert hpa
      cases plp.alive <;> simp
    obtain ⟨pl3, hl3, hview⟩ := phase3_entry hp
    rw [if_neg hpa] at hview
    have ha3 : pl3.alive = false := by rw [clearFC_alive hview, hpa']
    have hs3 : pl3.score = plp.score := clearFC_score hview
    refine ⟨pl3, ?_, ?_, ?_, ?_, ?_⟩
    · rw [alookup_step_players, hl3]
      show some (movePl _ _ _ p pl3) = _
      rw [movePl_not_alive ha3]
    · rw [hs3]
    · intro _
      exact hs3
    · intro habs
      exact absurd habs hpa
    · intro habs
      exact absurd habs hpa

def stC6 : GameState :=
  { players := [("a", testPlayer [(0, 0), (39, 0), (38, 0)] (1, 0) (1, 0)),
                ("b", testPlayer [(2, 0), (3, 0), (4, 0)] (-1, 0) (-1, 0))]
    food := [(1, 0)]
    occupied := {(0, 0), (39, 0), (38, 0), (2, 0), (3, 0), (4, 0), (1, 0)}
    tick := 0
    death_reasons := [] }

/-- C6 counterexample: player "a" projects its head exactly onto a food cell
but collides head-to-head with "b" on that cell the same tick; the food item
is consumed (`food_collected` becomes 1) yet the score stays 0 — refuting
"score increases by exactly 1 whenever the player's projected head lands on
a food cell". -/
theorem C6_counterexample :
    ((1 : Int), (0 : Int)) ∈ stC6.food ∧
    projectHead (commitDir (testPlayer [(0, 0), (39, 0), (38, 0)] (1, 0) (1, 0))) = (1, 0) ∧
    alookup "a" stC6.players =
      some (testPlayer [(0, 0), (39, 0), (38, 0)] (1, 0) (1, 0)) ∧
    (alookup "a" (stC6.step []).players).map Player.score = some 0 ∧
    (alookup "a" (stC6.step []).players).map Player.food_collected = some 1 ∧
    (alookup "a" (stC6.step []).players).map Player.alive = some false := by
  decide

theorem C6_witness :
    ∃ pl2, alookup "a" (stC6.step []).players = some pl2 ∧
      (testPlayer [(0, 0), (39, 0), (38, 0)] (1, 0) (1, 0)).score ≤ pl2.score ∧
      ((testPlayer [(0, 0), (39, 0), (38, 0)] (1, 0) (1, 0)).alive = false →
        pl2.score = (testPlayer [(0, 0), (39, 0), (38, 0)] (1, 0) (1, 0)).score) ∧
      ((testPlayer [(0, 0), (39, 0), (38, 0)] (1, 0) (1, 0)).alive = true →
        pl2.alive = false →
        pl2.score = (testPlayer [(0, 0), (39, 0), (38, 0)] (1, 0) (1, 0)).score) ∧
      ((testPlayer [(0, 0), (39, 0), (38, 0)] (1, 0) (1, 0)).alive = true →
        pl2.alive = true →
        pl2.score = (testPlayer [(0, 0), (39, 0), (38, 0)] (1, 0) (1, 0)).score +
          (if projectHead (commitDir (testPlayer [(0, 0), (39, 0), (38, 0)] (1, 0) (1, 0)))
            ∈ stC6.food then 1 else 0)) :=
  C6_score stC6 [] "a" (testPlayer [(0, 0), (39, 0), (38, 0)] (1, 0) (1, 0))
    (by decide) (by rfl)

/-! ### Claim C4: the own-tail exemption -/

/-- C4 (amended): for an alive player with no head-to-head partner whose
projected head equals its own current tail cell: if it is not marked for
growth (no food on that cell) it survives the tick — the tail-vacate
exemption of server.py lines 287-289; if it IS marked for growth (which
happens exactly when a food item lies on the tail cell) it also survives:
eating removes the cell from the transient occupancy set (line 270), so the
body-collision check passes and the player grows — it does not die with
cause "self" as the original claim states. -/
theorem C4_tail_exemption (st : GameState) (rng : List RandStep) (p : String) (plp : Player)
    (hnd : NodupKeys st) (hp : alookup p st.players = some plp) (hpa : plp.alive = true)
    (hnc : NoClashAt st p plp) (hbody : plp.body ≠ [])
    (htail : projectHead (commitDir plp) = plp.body.getLastD (0, 0)) :
    (projectHead (commitDir plp) ∉ st.food →
      ∃ pl2, alookup p (st.step rng).players = some pl2 ∧ pl2.alive = true) ∧
    (projectHead (commitDir plp) ∈ st.food →
      ∃ pl2, alookup p (st.step rng).players = some pl2 ∧ pl2.alive = true ∧
        pl2.score = plp.score + 1 ∧
        pl2.body = projectHead (commitDir plp) :: plp.body) := by
  obtain ⟨pl3, hl3, hb3, ha3, hs3⟩ := phase3_entry_alive hp hpa
  have hnhs := alookup_nhs hp hpa
  constructor
  · intro hnf
    have hsurv := tail_vacate_survives hnd hp hpa hnc hbody htail hnf
    refine ⟨movePl (newHeads (commitPlayers st.players)) st.phase3.grow st.phase3.dead p pl3,
      ?_, ?_⟩
    · rw [alookup_step_players, hl3]
      rfl
    · by_cases hg : p ∈ st.phase3.grow
      · rw [movePl_surv_grow ha3 hsurv hnhs hg]
        exact ha3
      · rw [movePl_surv_nogrow ha3 hsurv hnhs hg]
        exact ha3
  · intro hf
    obtain ⟨hsurv, hg⟩ := food_eater_survives hnd hp hpa hnc hf
    refine ⟨movePl (newHeads (commitPlayers st.players)) st.phase3.grow st.phase3.dead p pl3,
      ?_, ?_, ?_, ?_⟩
    · rw [alookup_step_players, hl3]
      rfl
    · rw [movePl_surv_grow ha3 hsurv hnhs hg]
      exact ha3
    · rw [movePl_surv_grow ha3 hsurv hnhs hg]
      show pl3.score + 1 = plp.score + 1
      rw [hs3]
    · rw [movePl_surv_grow ha3 hsurv hnhs hg]
      show projectHead (commitDir plp) :: pl3.body = _
      rw [hb3]

def stC4 : GameState :=
  { players := [("a", testPlayer [(0, 0), (1, 0), (1, 1), (0, 1)] (0, 1) (0, 1))]
    food := [(0, 1)]
    occupied := {(0, 0), (1, 0), (1, 1), (0, 1)}
    tick := 0
    death_reasons := [] }

/-- C4 counterexample: a player whose projected head equals its own current
tail cell while marked for growth (a food item lies on the tail) does not
die with cause "self" — it survives, eats, and grows. -/
theorem C4_counterexample :
    (alookup "a" stC4.players).map (fun pl => pl.body.getLastD (0, 0)) = some (0, 1) ∧
    projectHead (commitDir (testPlayer [(0, 0), (1, 0), (1, 1), (0, 1)] (0, 1) (0, 1)))
      = (0, 1) ∧
    ((0 : Int), (1 : Int)) ∈ stC4.food ∧
    (alookup "a" (stC4.step []).players).map Player.alive = some true ∧
    (alookup "a" (stC4.step []).players).map Player.score = some 1 ∧
    alookup "a" (stC4.step []).death_reasons = none := by
  decide

theorem C4_witness :
    ∃ pl2, alookup "a" (stC4.step []).players = some pl2 ∧ pl2.alive = true ∧
      pl2.score = (testPlayer [(0, 0), (1, 0), (1, 1), (0, 1)] (0, 1) (0, 1)).score + 1 ∧
      pl2.body = projectHead (commitDir
          (testPlayer [(0, 0), (1, 0), (1, 1), (0, 1)] (0, 1) (0, 1))) ::
        (testPlayer [(0, 0), (1, 0), (1, 1), (0, 1)] (0, 1) (0, 1)).body :=
  (C4_tail_exemption stC4 [] "a" (testPlayer [(0, 0), (1, 0), (1, 1), (0, 1)] (0, 1) (0, 1))
    (by decide) (by rfl) (by rfl) (by decide) (by decide) (by decide)).2 (by decide)

/-! ### Claim C1: pairwise disjointness of alive bodies after a tick -/

/-- Every player alive after the tick was alive before it, was not recorded
dead by the collision loop, and every cell of its new body is either its
projected head or a cell of its pre-move body. -/
theorem step_survivor_elim {st : GameState} (hnd : NodupKeys st) {pr : String × Player}
    (hpr : pr ∈ st.step_core.players) (halive : pr.2.alive = true) :
    ∃ plp, alookup pr.1 st.players = some plp ∧ plp.alive = true ∧
      pr.1 ∉ st.phase3.dead ∧
      (∀ c ∈ pr.2.body, c = projectHead (commitDir plp) ∨ c ∈ plp.body) := by
  have hpr' : pr ∈ st.phase3.players.map
      (fun q => (q.1, movePl (newHeads (commitPlayers st.players)) st.phase3.grow
        st.phase3.dead q.1 q.2)) := hpr
  obtain ⟨pr3, hpr3, heq⟩ := List.mem_map.mp hpr'
  obtain ⟨k, pl3⟩ := pr3
  subst heq
  have hnd3 : (st.phase3.players.map Prod.fst).Nodup := by
    rw [phase3_keys]
    exact hnd
  have hl3 : alookup k st.phase3.players = some pl3 := alookup_eq_some_of_mem hnd3 hpr3
  have hkeys : k ∈ st.players.map Prod.fst := by
    have h2 : k ∈ st.phase3.players.map Prod.fst := List.mem_map.mpr ⟨(k, pl3), hpr3, rfl⟩
    rwa [phase3_keys] at h2
  obtain ⟨pr0, hpl0, hk0⟩ := List.mem_map.mp hkeys
  obtain ⟨k0, plp⟩ := pr0
  have hk0' : k0 = k := hk0
  have hpl0' : (k, plp) ∈ st.players := hk0' ▸ hpl0
  have hk : alookup k st.players = some plp := alookup_eq_some_of_mem hnd hpl0'
  obtain ⟨pl3', hl3', hview⟩ := phase3_entry hk
  rw [hl3] at hl3'
  obtain rfl : pl3 = pl3' := Option.some.inj hl3'
  by_cases hpa : plp.alive = true
  · rw [if_pos hpa] at hview
    have hb3 : pl3.body = plp.body := by rw [clearFC_body hview, commitDir_body]
    have ha3 : pl3.alive = true := by rw [clearFC_alive hview, commitDir_alive]; exact hpa
    by_cases hdead : k ∈ st.phase3.dead
    · exfalso
      rw [movePl_dead ha3 hdead] at halive
      have habs : (false : Bool) = true := halive
      exact absurd habs (by decide)
    · refine ⟨plp, hk, hpa, hdead, ?_⟩
      have hnhs := alookup_nhs hk hpa
      intro c hc
      by_cases hg : k ∈ st.phase3.grow
      · rw [movePl_surv_grow ha3 hdead hnhs hg] at hc
        have hc2 : c ∈ projectHead (commitDir plp) :: pl3.body := hc
        rcases List.mem_cons.mp hc2 with h2 | h2
        · exact Or.inl h2
        · exact Or.inr (hb3 ▸ h2)
      · rw [movePl_surv_nogrow ha3 hdead hnhs hg] at hc
        have hc2 : c ∈ (if START_LENGTH < (projectHead (commitDir plp) :: pl3.body).length
            then (projectHead (commitDir plp) :: pl3.body).dropLast
            else projectHead (commitDir plp) :: pl3.body) := hc
        have hc3 : c ∈ projectHead (commitDir plp) :: pl3.body := by
          by_cases hlen : START_LENGTH < (projectHead (commitDir plp) :: pl3.body).length
          · rw [if_pos hlen] at hc2
            exact (List.dropLast_sublist _).subset hc2
          · rw [if_neg hlen] at hc2
            exact hc2
        rcases List.mem_cons.mp hc3 with h2 | h2
        · exact Or.inl h2
        · exact Or.inr (hb3 ▸ h2)
  · exfalso
    rw [if_neg hpa] at hview
    have ha3 : pl3.alive = false := by
      rw [clearFC_alive hview]
      revert hpa
      cases plp.alive <;> simp
    rw [movePl_not_alive ha3] at halive
    rw [ha3] at halive
    exact absurd halive (by decide)

/-- C1 (amended): whenever the pre-tick state is consistent — distinct
player ids, alive players' bodies pairwise disjoint, and no food item on an
alive player's body — then after a full tick the bodies of any two distinct
alive players occupy pairwise disjoint sets of cells.  (The consistency
precondition is necessary: from a fallback-spawn overlap state the tick does
not restore disjointness, see the counterexample.) -/
theorem C1_step_disjoint (st : GameState) (rng : List RandStep)
    (hnd : NodupKeys st) (had : AliveDisjoint st) (hfc : FoodClear st) :
    AliveDisjoint (st.step rng) := by
  intro pr hpr qr hqr hne hpa hqa c hcp hcq
  have hpr' : pr ∈ st.step_core.players := hpr
  have hqr' : qr ∈ st.step_core.players := hqr
  obtain ⟨plp, hp, hpa', hpd, hpcell⟩ := step_survivor_elim hnd hpr' hpa
  obtain ⟨plq, hq, hqa', hqd, hqcell⟩ := step_survivor_elim hnd hqr' hqa
  rcases hpcell c hcp with hc1 | hc1 <;> rcases hqcell c hcq with hc2 | hc2
  · exact hpd (clash_dead hp (alookup_mem hq) (fun h => hne h.symm) hpa' hqa'
      (by rw [← hc2, ← hc1])).1.1
  · exact absurd (hc1 ▸ hc2)
      (survivor_head_clear had hfc hp (alookup_mem hq) (fun h => hne h.symm) hpa' hqa' hpd)
  · exact absurd (hc2 ▸ hc1)
      (survivor_head_clear had hfc hq (alookup_mem hp) hne hqa' hpa' hqd)
  · exact had (pr.1, plp) (alookup_mem hp) (qr.1, plq) (alookup_mem hq) hne hpa' hqa'
      c hc1 hc2

def stC1 : GameState :=
  { players := [("a", testPlayer [(5, 0), (4, 0), (3, 0)] (1, 0) (0, 1)),
                ("b", testPlayer [(6, 0), (5, 0), (4, 0)] (1, 0) (0, -1))]
    food := []
    occupied := {(3, 0), (4, 0), (5, 0), (6, 0)}
    tick := 0
    death_reasons := [] }

def rngC1 : List RandStep :=
  [⟨[(20, 20)], (20, 20)⟩, ⟨[(21, 20)], (21, 20)⟩, ⟨[(22, 20)], (22, 20)⟩,
   ⟨[(23, 20)], (23, 20)⟩, ⟨[(24, 20)], (24, 20)⟩]

/-- C1 counterexample: two overlapping alive players (an overlap only the
best-effort fallback spawn can create) both survive a fully resolved tick —
food is replenished back to `FOOD_COUNT` — and their bodies still share the
cell `(5, 0)`, refuting the claim for arbitrary game states. -/
theorem C1_counterexample :
    (alookup "a" (stC1.step rngC1).players).map Player.alive = some true ∧
    (alookup "b" (stC1.step rngC1).players).map Player.alive = some true ∧
    (alookup "a" (stC1.step rngC1).players).map Player.body =
      some [(5, 1), (5, 0), (4, 0)] ∧
    (alookup "b" (stC1.step rngC1).players).map Player.body =
      some [(6, 29), (6, 0), (5, 0)] ∧
    (stC1.step rngC1).food.length = FOOD_COUNT ∧
    ¬ AliveDisjoint (stC1.step rngC1) := by
  decide

def stW1 : GameState :=
  { players := [("a", testPlayer [(5, 5), (4, 5), (3, 5)] (1, 0) (1, 0)),
                ("b", testPlayer [(5, 20), (4, 20), (3, 20)] (1, 0) (1, 0))]
    food := [(0, 0)]
    occupied := {(5, 5), (4, 5), (3, 5), (5, 20), (4, 20), (3, 20), (0, 0)}
    tick := 0
    death_reasons := [] }

theorem C1_witness : AliveDisjoint (stW1.step []) :=
  C1_step_disjoint stW1 [] (by decide) (by decide) (by decide)

/-! ### Claim C5: the occupancy invariant -/

theorem aliveBodiesCells_append_alive (ps : List (String × Player)) (pid : String)
    (pl : Player) (hal : pl.alive = true) :
    aliveBodiesCells (ps ++ [(pid, pl)]) = aliveBodiesCells ps ∪ pl.body.toFinset := by
  ext c
  simp only [mem_aliveBodiesCells, Finset.mem_union, List.mem_toFinset, List.mem_append,
    List.mem_singleton]
  constructor
  · rintro ⟨pr, hpr | hpr, hpa, hpc⟩
    · exact Or.inl ⟨pr, hpr, hpa, hpc⟩
    · subst hpr
      exact Or.inr hpc
  · rintro (⟨pr, hpr, hpa, hpc⟩ | hc)
    · exact ⟨pr, Or.inl hpr, hpa, hpc⟩
    · exact ⟨(pid, pl), Or.inr rfl, hal, hc⟩

theorem mem_aerase_iff {β : Type} {k : String} {l : List (String × β)}
    (hnd : (l.map Prod.fst).Nodup) {pr : String × β} :
    pr ∈ aerase k l ↔ pr ∈ l ∧ pr.1 ≠ k := by
  induction l with
  | nil => simp [aerase]
  | cons p rest ih =>
      simp only [List.map_cons, List.nodup_cons] at hnd
      rw [aerase]
      split
      · rename_i hp
        subst hp
        constructor
        · intro h
          refine ⟨List.mem_cons_of_mem _ h, ?_⟩
          intro he
          exact hnd.1 (List.mem_map.mpr ⟨pr, h, he⟩)
        · rintro ⟨h1, h2⟩
          rcases List.mem_cons.mp h1 with h3 | h3
          · exact absurd (congrArg Prod.fst h3) h2
          · exact h3
      · rename_i hp
        constructor
        · intro h
          rcases List.mem_cons.mp h with h1 | h1
          · subst h1
            exact ⟨List.mem_cons_self _ _, hp⟩
          · obtain ⟨h2, h3⟩ := (ih hnd.2).mp h1
            exact ⟨List.mem_cons_of_mem _ h2, h3⟩
        · rintro ⟨h1, h2⟩
          rcases List.mem_cons.mp h1 with h3 | h3
          · exact h3 ▸ List.mem_cons_self _ _
          · exact List.mem_cons_of_mem _ ((ih hnd.2).mpr ⟨h3, h2⟩)

/-- The replenishment loop keeps `occupied = A ∪ food` for any fixed `A`:
each placed food cell enters both the food list and the occupancy set. -/
theorem spawn_food_aux_occ (rng : List RandStep) (A : Finset Pos) :
    ∀ fo : List Pos × Finset Pos, fo.2 = A ∪ fo.1.toFinset →
      (spawn_food_aux rng fo).2 = A ∪ (spawn_food_aux rng fo).1.toFinset := by
  induction rng with
  | nil => intro fo h; exact h
  | cons r rs ih =>
      intro fo h
      show (if fo.1.length < FOOD_COUNT then
          if find_empty_position r fo.2 ∈ fo.2 then spawn_food_aux rs fo
          else spawn_food_aux rs
            (fo.1 ++ [find_empty_position r fo.2], insert (find_empty_position r fo.2) fo.2)
        else fo).2 = A ∪ (if fo.1.length < FOOD_COUNT then
          if find_empty_position r fo.2 ∈ fo.2 then spawn_food_aux rs fo
          else spawn_food_aux rs
            (fo.1 ++ [find_empty_position r fo.2], insert (find_empty_position r fo.2) fo.2)
        else fo).1.toFinset
      by_cases hlen : fo.1.length < FOOD_COUNT
      · rw [if_pos hlen]
        by_cases hin : find_empty_position r fo.2 ∈ fo.2
        · rw [if_pos hin]
          exact ih fo h
        · rw [if_neg hin]
          apply ih
          show insert (find_empty_position r fo.2) fo.2 =
            A ∪ (fo.1 ++ [find_empty_position r fo.2]).toFinset
          rw [List.toFinset_append, h]
          ext x
          simp only [Finset.mem_insert, Finset.mem_union, List.mem_toFinset,
            List.toFinset_cons, List.toFinset_nil, insert_emptyc_eq, Finset.mem_singleton]
          tauto
      · rw [if_neg hlen]
        exact h

theorem spawn_food_occ (st : GameState) (rng : List RandStep) (hocc : OccInv st) :
    OccInv (st.spawn_food rng) := by
  show (spawn_food_aux rng (st.food, st.occupied)).2 =
    aliveBodiesCells st.players ∪ (spawn_food_aux rng (st.food, st.occupied)).1.toFinset
  exact spawn_food_aux_occ rng (aliveBodiesCells st.players) (st.food, st.occupied) hocc

theorem add_player_occ (st : GameState) (rng : SpawnRng) (pid dname : String) (now : Nat)
    (hfresh : alookup pid st.players = none) (hocc : OccInv st) :
    OccInv (st.add_player rng pid dname now) := by
  unfold GameState.add_player
  split
  · rename_i a _
    show st.occupied ∪ (spawnBody a).toFinset =
      aliveBodiesCells (aset pid (mkPlayer dname (spawnBody a) rng.hue now st.tick)
        st.players) ∪ st.food.toFinset
    rw [aset_eq_append_of_fresh _ hfresh,
      aliveBodiesCells_append_alive _ pid _ (by rfl), hocc]
    ext x
    simp only [Finset.mem_union]
    tauto
  · show st.occupied ∪ (spawnBody rng.fallback).toFinset =
      aliveBodiesCells (aset pid (mkPlayer dname (spawnBody rng.fallback) rng.hue now st.tick)
        st.players) ∪ st.food.toFinset
    rw [aset_eq_append_of_fresh _ hfresh,
      aliveBodiesCells_append_alive _ pid _ (by rfl), hocc]
    ext x
    simp only [Finset.mem_union]
    tauto

theorem remove_player_occ (st : GameState) (pid : String) (pl : Player)
    (hnd : NodupKeys st) (had : AliveDisjoint st) (hfc : FoodClear st)
    (hpl : alookup pid st.players = some pl) (hal : pl.alive = true)
    (hocc : OccInv st) : OccInv (st.remove_player pid) := by
  unfold GameState.remove_player
  simp only [hpl]
  show st.occupied \ pl.body.toFinset =
    aliveBodiesCells (aerase pid st.players) ∪ st.food.toFinset
  rw [hocc]
  ext c
  simp only [Finset.mem_sdiff, Finset.mem_union, mem_aliveBodiesCells, List.mem_toFinset]
  constructor
  · rintro ⟨h1 | h1, h2⟩
    · obtain ⟨pr, hpr, hpa, hpc⟩ := h1
      by_cases hpk : pr.1 = pid
      · exfalso
        have hmem2 : (pid, pr.2) ∈ st.players := by
          rw [← hpk]
          exact hpr
        have h3 := alookup_eq_some_of_mem hnd hmem2
        rw [hpl] at h3
        obtain rfl := Option.some.inj h3
        exact h2 hpc
      · exact Or.inl ⟨pr, (mem_aerase_iff hnd).mpr ⟨hpr, hpk⟩, hpa, hpc⟩
    · exact Or.inr h1
  · rintro (⟨pr, hpr, hpa, hpc⟩ | h1)
    · obtain ⟨hpr', hpk⟩ := (mem_aerase_iff hnd).mp hpr
      exact ⟨Or.inl ⟨pr, hpr', hpa, hpc⟩,
        had pr hpr' (pid, pl) (alookup_mem hpl) hpk hpa hal c hpc⟩
    · exact ⟨Or.inr h1, hfc (pid, pl) (alookup_mem hpl) hal c h1⟩

/-- Every cell released by dead-snake cleanup belongs to the pre-move body
of some player that was alive before the tick and died during it. -/
theorem step_dead_cells_elim {st : GameState} (hnd : NodupKeys st) {c : Pos}
    (hc : c ∈ deadCellsOf st.phase3.dead st.step_core.players) :
    ∃ d pld, alookup d st.players = some pld ∧ pld.alive = true ∧
      d ∈ st.phase3.dead ∧ c ∈ pld.body := by
  obtain ⟨pr4, hpr4, hdmem, hcb⟩ := mem_deadCellsOf.mp hc
  have hpr4' : pr4 ∈ st.phase3.players.map
      (fun q => (q.1, movePl (newHeads (commitPlayers st.players)) st.phase3.grow
        st.phase3.dead q.1 q.2)) := hpr4
  obtain ⟨pr3, hmem3, heq⟩ := List.mem_map.mp hpr4'
  obtain ⟨d, pl3d⟩ := pr3
  subst heq
  have hdmem' : d ∈ st.phase3.dead := hdmem
  obtain ⟨pld, hpldm, hlda⟩ := phase3_dead_alive st d hdmem'
  have hld : alookup d st.players = some pld := alookup_eq_some_of_mem hnd hpldm
  have hnd3 : (st.phase3.players.map Prod.fst).Nodup := by
    rw [phase3_keys]
    exact hnd
  have hl3 : alookup d st.phase3.players = some pl3d := alookup_eq_some_of_mem hnd3 hmem3
  obtain ⟨pl3', hl3', hview⟩ := phase3_entry hld
  rw [hl3] at hl3'
  obtain rfl : pl3d = pl3' := Option.some.inj hl3'
  rw [if_pos hlda] at hview
  have hb3 : pl3d.body = pld.body := by rw [clearFC_body hview, commitDir_body]
  have ha3 : pl3d.alive = true := by rw [clearFC_alive hview, commitDir_alive]; exact hlda
  refine ⟨d, pld, hld, hlda, hdmem', ?_⟩
  have hcb2 : c ∈ (movePl (newHeads (commitPlayers st.players)) st.phase3.grow
      st.phase3.dead d pl3d).body := hcb
  rw [movePl_dead ha3 hdmem'] at hcb2
  have hcb3 : c ∈ pl3d.body := hcb2
  rw [hb3] at hcb3
  exact hcb3

theorem step_core_occ (st : GameState) (hnd : NodupKeys st) (had : AliveDisjoint st)
    (hfc : FoodClear st) : OccInv st.step_core := by
  show (st.phase3.food.toFinset ∪ aliveBodiesCells st.step_core.players) \
      deadCellsOf st.phase3.dead st.step_core.players =
    aliveBodiesCells st.step_core.players ∪ st.phase3.food.toFinset
  have hD : ∀ c ∈ deadCellsOf st.phase3.dead st.step_core.players,
      c ∉ st.phase3.food.toFinset ∧ c ∉ aliveBodiesCells st.step_core.players := by
    intro c hc
    obtain ⟨d, pld, hld, hlda, hdd, hcb⟩ := step_dead_cells_elim hnd hc
    constructor
    · intro hcf
      have h2 : c ∈ st.food := phase3_food_sub st c (List.mem_toFinset.mp hcf)
      exact hfc (d, pld) (alookup_mem hld) hlda c h2 hcb
    · intro hcb2
      obtain ⟨qr4, hqr4, hqa4, hqc4⟩ := mem_aliveBodiesCells.mp hcb2
      obtain ⟨plq, hq, hqa', hqd, hqcell⟩ := step_survivor_elim hnd hqr4 hqa4
      have hqdne : qr4.1 ≠ d := fun h => hqd (h ▸ hdd)
      rcases hqcell c hqc4 with hc1 | hc1
      · exact absurd (hc1 ▸ hcb)
          (survivor_head_clear had hfc hq (alookup_mem hld) (fun h => hqdne h.symm)
            hqa' hlda hqd)
      · exact had (qr4.1, plq) (alookup_mem hq) (d, pld) (alookup_mem hld) hqdne
          hqa' hlda c hc1 hcb
  ext c
  simp only [Finset.mem_sdiff, Finset.mem_union]
  constructor
  · rintro ⟨h1 | h1, -⟩
    · exact Or.inr h1
    · exact Or.inl h1
  · rintro (h1 | h1)
    · exact ⟨Or.inr h1, fun hd => (hD c hd).2 h1⟩
    · exact ⟨Or.inl h1, fun hd => (hD c hd).1 h1⟩

theorem step_occ (st : GameState) (rng : List RandStep) (hnd : NodupKeys st)
    (had : AliveDisjoint st) (hfc : FoodClear st) : OccInv (st.step rng) := by
  have hcore := step_core_occ st hnd had hfc
  have h2 := spawn_food_occ st.step_core rng hcore
  exact h2

/-- C5 (amended): the occupancy set equals the union of every alive player's
body cells and all food cells after `spawn_food`, after `add_player` of a
fresh identity, after a full `step` from a consistent state, and after
`remove_player` of an ALIVE player from a consistent state.  The original
claim fails for `remove_player` of a dead player: the dead player's former
cells have already been released at death, and blindly discarding them again
(server.py lines 207-210) can strip cells now owned by food (or, in overlap
states, by other players) — see the counterexample. -/
theorem C5_occupancy (st : GameState) (rng : List RandStep) (srng : SpawnRng)
    (pidA dnameA pidR : String) (now : Nat)
    (hnd : NodupKeys st) (had : AliveDisjoint st) (hfc : FoodClear st) (hocc : OccInv st) :
    (alookup pidA st.players = none → OccInv (st.add_player srng pidA dnameA now)) ∧
    (∀ pl, alookup pidR st.players = some pl → pl.alive = true →
      OccInv (st.remove_player pidR)) ∧
    OccInv (st.spawn_food rng) ∧
    OccInv (st.step rng) :=
  ⟨fun hfresh => add_player_occ st srng pidA dnameA now hfresh hocc,
   fun pl hpl hal => remove_player_occ st pidR pl hnd had hfc hpl hal hocc,
   spawn_food_occ st rng hocc,
   step_occ st rng hnd had hfc⟩

def stC5 : GameState :=
  { players := [("a",
      { display_name := "a", body := [(3, 0)], dir := (1, 0), pending_dir := (1, 0),
        alive := false, score := 0, food_collected := 0, color := "c",
        last_input_time := 0, spawn_tick := 0 })]
    food := [(3, 0)]
    occupied := {(3, 0)}
    tick := 7
    death_reasons := [("a", "other")] }

/-- C5 counterexample: a state satisfying the occupancy invariant in which a
dead player's former body cell now holds a food item; `remove_player`
blindly discards that cell from `occupied`, breaking the invariant. -/
theorem C5_counterexample : OccInv stC5 ∧ ¬ OccInv (stC5.remove_player "a") := by
  decide

def stW5 : GameState :=
  { players := [("a", testPlayer [(5, 5), (4, 5), (3, 5)] (1, 0) (1, 0)),
                ("b", testPlayer [(5, 20), (4, 20), (3, 20)] (1, 0) (1, 0))]
    food := [(0, 0)]
    occupied := {(5, 5), (4, 5), (3, 5), (5, 20), (4, 20), (3, 20), (0, 0)}
    tick := 0
    death_reasons := [] }

def srngW5 : SpawnRng := ⟨[(20, 10)], (0, 0), 7⟩

theorem C5_witness :
    OccInv (stW5.add_player srngW5 "c" "c" 0) ∧
    OccInv (stW5.remove_player "a") ∧
    OccInv (stW5.spawn_food []) ∧
    OccInv (stW5.step []) := by
  have h := C5_occupancy stW5 [] srngW5 "c" "c" "a" 0
    (by decide) (by decide) (by decide) (by decide)
  exact ⟨h.1 (by rfl), h.2.1 (testPlayer [(5, 5), (4, 5), (3, 5)] (1, 0) (1, 0))
    (by rfl) (by rfl), h.2.2.1, h.2.2.2⟩

end Snake
